import Mathlib

/-!
Verification of the PlainSpec rule engine (`src/executor.ts`, `src/coverage.ts`,
and the legacy validator module containing `detectConflictingSetActions`).

The TypeScript sources are shallowly embedded: JavaScript runtime values are
modelled by the `JSValue` inductive (numbers as `Int`; JavaScript's float
semantics are not exercised by any property below), mutation is modelled by
explicit state passing, and the host regular-expression engine — external to
the repository — is a parameter (`RegexEngine`), whose `compile` returning
`none` models `new RegExp(pattern)` throwing.

Deviations from JavaScript, each noted at its definition:
* `===` on objects/arrays is reference equality in JS; it is modelled
  structurally.  No theorem below depends on comparing two non-primitive
  values.
* `setPathValue` through a `null`/primitive intermediate throws a `TypeError`
  in JS for paths of three or more segments; the model is a silent no-op.
  All claims concern two-segment `entity.field` paths into object stores
  (the data-model invariant), where the model agrees with JS.
* `localeCompare` is modelled as code-point string order.
-/

namespace PlainSpec

/-- JavaScript runtime values as used by the engine: the JSON universe plus
`undefined`.  Numbers are modelled as `Int`. -/
inductive JSValue where
  | undefined
  | null
  | bool (b : Bool)
  | num (n : Int)
  | str (s : String)
  | arr (elems : List JSValue)
  | obj (fields : List (String × JSValue))
deriving Repr

instance : Inhabited JSValue := ⟨JSValue.undefined⟩

/-- Is this value JavaScript `undefined`? -/
def JSValue.isUndefined : JSValue → Bool
  | .undefined => true
  | _ => false

/-- Property read `v[key]`: association lookup on objects, canonical numeric
index on arrays, `undefined` otherwise.  (Prototype-chain properties such as
`"length"` are outside the JSON data model and not modelled.) -/
def getProp (v : JSValue) (key : String) : JSValue :=
  match v with
  | .obj fields =>
    match fields.lookup key with
    | some x => x
    | none => .undefined
  | .arr elems =>
    match key.toNat? with
    | some i => if toString i = key then (elems.getD i .undefined) else .undefined
    | none => .undefined
  | _ => .undefined

/-- Association-list update used both for `Map.set` and for object-literal
key override: replaces the value at an existing key in place, else appends. -/
def assocSet {α : Type} (l : List (String × α)) (key : String) (val : α) :
    List (String × α) :=
  if (l.lookup key).isSome then
    l.map (fun kv => if kv.1 = key then (key, val) else kv)
  else
    l ++ [(key, val)]

/-- `path.split('.')` on a character list: splits at every `'.'`, keeping
empty segments (so `"" ↦ [""]`, matching JS). -/
def splitDotAux : List Char → List Char → List String
  | [], acc => [String.mk acc.reverse]
  | c :: rest, acc =>
    if c = '.' then String.mk acc.reverse :: splitDotAux rest []
    else splitDotAux rest (c :: acc)

/-- `path.split('.')`. -/
def splitPath (path : String) : List String :=
  splitDotAux path.data []

/-- `getPathValue(obj, path)` from executor.ts:
`path.split('.').reduce((acc, key) => acc != null ? acc[key] : undefined, obj)`. -/
def getPathValue (v : JSValue) (path : String) : JSValue :=
  (splitPath path).foldl
    (fun acc key =>
      match acc with
      | .undefined => .undefined
      | .null => .undefined
      | a => getProp a key)
    v

/-- Property write `v[key] = val`: updates objects and (canonical-index)
array slots; a write to a primitive is a silent no-op (non-strict JS).  -/
def putProp (v : JSValue) (key : String) (val : JSValue) : JSValue :=
  match v with
  | .obj fields => .obj (assocSet fields key val)
  | .arr elems =>
    match key.toNat? with
    | some i =>
      if toString i = key ∧ i < elems.length then .arr (elems.set i val) else .arr elems
    | none => .arr elems
  | other => other

/-- `setPathValue(obj, path, value)` from executor.ts, functionally: walks all
keys but the last, replacing an `undefined` intermediate with `{}`; writes
`value` at the last key and reports the previous value there.
(In JS a path of ≥ 3 segments through a primitive or `null` throws; the model
no-ops.  Engine writes are two-segment `entity.field` paths, where model and
JS agree.) -/
def setPathKeys : JSValue → List String → JSValue → (JSValue × JSValue)
  | v, [], _ => (v, .undefined)
  | v, [lastKey], value =>
    (putProp v lastKey value, getProp v lastKey)
  | v, key :: rest, value =>
    let child := getProp v key
    let child0 := if child.isUndefined then .obj [] else child
    let (child', previous) := setPathKeys child0 rest value
    (putProp v key child', previous)

/-- `setPathValue` returning `(updated store, previous)`. -/
def setPathValue (v : JSValue) (path : String) (value : JSValue) :
    (JSValue × JSValue) :=
  setPathKeys v (splitPath path) value

mutual
/-- `cloneInput` = `JSON.parse(JSON.stringify(value))`: drops `undefined`
object properties, turns `undefined` array elements into `null`, copies
everything else.  (A top-level `undefined` throws in JS; the engine only
clones object payloads.) -/
def cloneInput : JSValue → JSValue
  | .undefined => .undefined
  | .null => .null
  | .bool b => .bool b
  | .num n => .num n
  | .str s => .str s
  | .arr elems => .arr (cloneElems elems)
  | .obj fields => .obj (cloneFields fields)

/-- `JSON.stringify`/`parse` on array elements: `undefined ↦ null`. -/
def cloneElems : List JSValue → List JSValue
  | [] => []
  | x :: rest =>
    (match x with
     | .undefined => .null
     | v => cloneInput v) :: cloneElems rest

/-- `JSON.stringify`/`parse` on object properties: `undefined` dropped. -/
def cloneFields : List (String × JSValue) → List (String × JSValue)
  | [] => []
  | (k, v) :: rest =>
    match v with
    | .undefined => cloneFields rest
    | v => (k, cloneInput v) :: cloneFields rest
end

mutual
/-- Structural equality on `JSValue`, modelling JavaScript `===`
(and `Array.prototype.includes`' SameValueZero) on the engine's values.
JS compares objects/arrays by reference; the model compares them
structurally.  No theorem in this file rests on comparing two
non-primitive values. -/
def jsStrictEq : JSValue → JSValue → Bool
  | .undefined, .undefined => true
  | .null, .null => true
  | .bool a, .bool b => a == b
  | .num a, .num b => a == b
  | .str a, .str b => a == b
  | .arr a, .arr b => jsStrictEqList a b
  | .obj a, .obj b => jsStrictEqFields a b
  | _, _ => false

def jsStrictEqList : List JSValue → List JSValue → Bool
  | [], [] => true
  | a :: as, b :: bs => jsStrictEq a b && jsStrictEqList as bs
  | _, _ => false

def jsStrictEqFields : List (String × JSValue) → List (String × JSValue) → Bool
  | [], [] => true
  | a :: as, b :: bs => a.1 == b.1 && jsStrictEq a.2 b.2 && jsStrictEqFields as bs
  | _, _ => false
end

mutual
/-- JavaScript `String(v)` string conversion for the engine's values
(`String(rhs)` in the `contains` comparison). -/
def jsToString : JSValue → String
  | .undefined => "undefined"
  | .null => "null"
  | .bool b => if b then "true" else "false"
  | .num n => toString n
  | .str s => s
  | .arr elems => jsToStringElems elems
  | .obj _ => "[object Object]"

/-- `Array.prototype.toString`: elements joined by commas, with
`null`/`undefined` elements rendered as the empty string. -/
def jsToStringElems : List JSValue → String
  | [] => ""
  | [x] => jsToStringElem x
  | x :: rest => jsToStringElem x ++ "," ++ jsToStringElems rest

def jsToStringElem : JSValue → String
  | .undefined => ""
  | .null => ""
  | v => jsToString v
end

/-- Does the first character list start with the second? -/
def charsStartWith : List Char → List Char → Bool
  | _, [] => true
  | [], _ :: _ => false
  | a :: as, b :: bs => a == b && charsStartWith as bs

/-- Substring containment on character lists. -/
def charsContain : List Char → List Char → Bool
  | [], sub => sub.isEmpty
  | s@(_ :: t), sub => charsStartWith s sub || charsContain t sub

/-- JavaScript `String.prototype.includes`: substring containment
(`"".includes("")` and `s.includes("")` are `true`, as in JS). -/
def containsSubstr (s sub : String) : Bool :=
  charsContain s.data sub.data

/-! ## The typed AST (`src/types.ts`, richer variant used by executor.ts) -/

/-- A literal operand value: `string | number | boolean | null`
(`ValueOperand.value` in types.ts). -/
inductive Prim where
  | str (s : String)
  | num (n : Int)
  | bool (b : Bool)
  | null
deriving Repr, DecidableEq

/-- Embed a literal into the runtime value universe. -/
def Prim.toJS : Prim → JSValue
  | .str s => .str s
  | .num n => .num n
  | .bool b => .bool b
  | .null => .null

/-- `Operand`: `FactOperand {kind:'fact', path, units?}` or
`ValueOperand {kind:'value', value, units?}`. -/
inductive Operand where
  | fact (path : String) (units : Option String)
  | value (v : Prim) (units : Option String)
deriving Repr

/-- `Condition` from types.ts.  `compare` covers the kinds
`'comparison' | 'compare'` (treated identically by the evaluator, with the
operator kept as its source string); `allC` covers `'all' | 'and'` and
`anyC` covers `'any' | 'or'` (the evaluator reduces the first pair with
`every` and the second with `some`). -/
inductive Condition where
  | compare (lhs : Operand) (operator : String) (rhs : Operand)
  | existsC (fact : Operand)
  | inC (value : Operand) (options : List Operand)
  | matches (value : Operand) (pattern : String) (caseInsensitive : Bool)
  | notC (condition : Condition)
  | allC (conditions : List Condition)
  | anyC (conditions : List Condition)
deriving Repr

/-- `Action` from types.ts. -/
inductive Action where
  | set (target : String) (value : Operand)
  | increment (target : String) (value : Int)
  | append (target : String) (value : Operand)
  | emit (event : String) (payload : Option (List (String × JSValue)))
  | route (toQueue : String) (reason : Option String)
deriving Repr

/-- The `kind` discriminator string of an action (used in logs). -/
def Action.kind : Action → String
  | .set .. => "set"
  | .increment .. => "increment"
  | .append .. => "append"
  | .emit .. => "emit"
  | .route .. => "route"

/-- `Rule` from types.ts.  `then`/`else` are Lean keywords, hence
`thenActions`/`elseActions`; `actions` is the legacy fallback field. -/
structure Rule where
  id : String
  name : String
  priority : Option Int := none
  mode : Option String := none
  when : Condition
  thenActions : Option (List Action) := none
  elseActions : Option (List Action) := none
  actions : Option (List Action) := none
  stopProcessing : Option Bool := none
deriving Repr

/-- `Constraint` from types.ts (`severity?: 'error' | 'warn' | 'warning'`). -/
structure Constraint where
  id : String
  description : String
  assert : Condition
  severity : Option String := none
deriving Repr

/-- `Example` from types.ts. -/
structure Example where
  id : String
  input : JSValue
  expected : JSValue
deriving Repr

/-- `ProgramConfig` from types.ts. -/
structure ProgramConfig where
  ruleEvaluation : String
deriving Repr

/-- `Program` from types.ts (entities carry no executor-relevant data and are
not read by executor.ts; they are omitted from the execution model). -/
structure Program where
  rules : List Rule
  constraints : Option (List Constraint) := none
  examples : Option (List Example) := none
  config : Option ProgramConfig := none
deriving Repr

/-- `ExecutionOptions` from types.ts; `none` models an absent field. -/
structure ExecutionOptions where
  mode : Option String := none
  maxRuleFirings : Option Int := none
  enableActions : Option Bool := none
  loopUntilSettled : Option Bool := none
  evaluateExamples : Option Bool := none
deriving Repr

/-- `runProgram(program, input)` with no options object. -/
def emptyOptions : ExecutionOptions := {}

/-! ## Trace objects -/

/-- `ConditionTrace` from types.ts: the evaluated condition, its boolean
result, the `details` record of resolved values, and child traces. -/
inductive ConditionTrace where
  | mk (condition : Condition) (result : Bool)
       (details : Option (List (String × JSValue)))
       (children : Option (List ConditionTrace))
deriving Repr

def ConditionTrace.condition : ConditionTrace → Condition
  | .mk c _ _ _ => c

def ConditionTrace.result : ConditionTrace → Bool
  | .mk _ r _ _ => r

def ConditionTrace.details : ConditionTrace → Option (List (String × JSValue))
  | .mk _ _ d _ => d

def ConditionTrace.children : ConditionTrace → Option (List ConditionTrace)
  | .mk _ _ _ c => c

/-- `ActionTrace` from types.ts. -/
structure ActionTrace where
  action : Action
  applied : Bool
  path : Option String := none
  beforeValue : Option JSValue := none
  afterValue : Option JSValue := none
  actionId : String
  ruleId : String
  conflict : Option Bool := none
deriving Repr

/-- `StateDiff` from types.ts. -/
structure StateDiff where
  path : String
  before : JSValue
  after : JSValue
deriving Repr

/-- `RuleTrace` from types.ts. -/
structure RuleTrace where
  ruleId : String
  ruleName : String
  priority : Option Int
  evaluatedWhen : Bool
  why : ConditionTrace
  actionsApplied : List ActionTrace
  stateDiff : List StateDiff
  stopProcessing : Option Bool
  warnings : Option (List String)
deriving Repr

/-- `NormalizedActionLog` from types.ts. -/
structure NormalizedActionLog where
  actionId : String
  ruleId : String
  kind : String
  path : Option String := none
  before : Option JSValue := none
  after : Option JSValue := none
  payload : Option (List (String × JSValue)) := none
deriving Repr

/-- `ConstraintResult` from types.ts. -/
structure ConstraintResult where
  constraint : Constraint
  passed : Bool
  trace : ConditionTrace
deriving Repr

/-- `ConstraintReport` from types.ts. -/
structure ConstraintReport where
  passed : List ConstraintResult
  failed : List ConstraintResult
  hasFailures : Bool
  hasErrors : Bool
  errorCount : Nat
  warningCount : Nat
deriving Repr

/-! ## The host regular-expression engine

`new RegExp(pattern, flags)` / `regex.test(value)` belong to the JavaScript
host, not to this repository; the evaluator is parameterised over them.
`compile pattern caseInsensitive = none` models the constructor throwing on
a malformed pattern; `some test` models a compiled regex. -/

structure RegexEngine where
  compile : String → Bool → Option (String → Bool)

/-- An engine on which every pattern fails to compile (used to instantiate
executions that contain no `matches` condition, and to witness the
substring fallback). -/
def noRegex : RegexEngine := ⟨fun _ _ => none⟩

/-! ## Condition evaluation (`evaluateOperand`, `evaluateComparison`,
`evaluateCondition` from executor.ts) -/

/-- `evaluateOperand(data, operand)`. -/
def evaluateOperand (data : JSValue) : Operand → JSValue
  | .fact path _ => getPathValue data path
  | .value v _ => v.toJS

/-- `evaluateComparison(lhs, operator, rhs)`: the `switch` over the operator
string, including its `default: return false`. -/
def evaluateComparison (lhs : JSValue) (operator : String) (rhs : JSValue) :
    Bool :=
  match operator with
  | "eq" | "==" => jsStrictEq lhs rhs
  | "neq" | "!=" => !(jsStrictEq lhs rhs)
  | "gt" | ">" =>
    match lhs, rhs with
    | .num a, .num b => a > b
    | _, _ => false
  | "gte" | ">=" =>
    match lhs, rhs with
    | .num a, .num b => a ≥ b
    | _, _ => false
  | "lt" | "<" =>
    match lhs, rhs with
    | .num a, .num b => a < b
    | _, _ => false
  | "lte" | "<=" =>
    match lhs, rhs with
    | .num a, .num b => a ≤ b
    | _, _ => false
  | "contains" =>
    match lhs with
    | .str s => containsSubstr s (jsToString rhs)
    | .arr elems => elems.any (fun e => jsStrictEq e rhs)
    | _ => false
  | "in" =>
    match rhs with
    | .arr elems => elems.any (fun e => jsStrictEq e lhs)
    | _ => false
  | _ => false

mutual
/-- `evaluateCondition(condition, data)` from executor.ts. -/
def evaluateCondition (re : RegexEngine) (condition : Condition)
    (data : JSValue) : ConditionTrace :=
  match condition with
  | .compare lhsOp operator rhsOp =>
    let lhs := evaluateOperand data lhsOp
    let rhs := evaluateOperand data rhsOp
    let result :=
      if !lhs.isUndefined && !rhs.isUndefined then evaluateComparison lhs operator rhs
      else false
    .mk condition result
      (some [("lhs", lhs), ("rhs", rhs), ("operator", .str operator)]) none
  | .existsC factOp =>
    let value := evaluateOperand data factOp
    let result := !value.isUndefined && !(jsStrictEq value .null)
    .mk condition result (some [("value", value)]) none
  | .inC valueOp optionOps =>
    let value := evaluateOperand data valueOp
    let options := optionOps.map (evaluateOperand data)
    let result := options.any (fun o => jsStrictEq o value)
    .mk condition result (some [("value", value), ("options", .arr options)]) none
  | .matches valueOp pattern caseInsensitive =>
    let value := evaluateOperand data valueOp
    let result :=
      match value with
      | .str s =>
        match re.compile pattern caseInsensitive with
        | some test => test s
        | none => containsSubstr s pattern
      | _ => false
    .mk condition result (some [("value", value), ("pattern", .str pattern)]) none
  | .notC child =>
    let childTrace := evaluateCondition re child data
    .mk condition (!childTrace.result) none (some [childTrace])
  | .allC conditions =>
    let childTraces := evaluateConditionList re conditions data
    .mk condition (childTraces.all (fun c => c.result)) none (some childTraces)
  | .anyC conditions =>
    let childTraces := evaluateConditionList re conditions data
    .mk condition (childTraces.any (fun c => c.result)) none (some childTraces)

/-- `condition.conditions.map((child) => evaluateCondition(child, data))`. -/
def evaluateConditionList (re : RegexEngine) (conditions : List Condition)
    (data : JSValue) : List ConditionTrace :=
  match conditions with
  | [] => []
  | c :: rest => evaluateCondition re c data :: evaluateConditionList re rest data
end

/-! ## Expectation matching (`expectationMatches` from executor.ts) -/

/-- `Object.keys`: field names of an object, index strings of an array. -/
def objKeys : JSValue → List String
  | .obj fields => fields.map (fun kv => kv.1)
  | .arr elems => (List.range elems.length).map toString
  | _ => []

theorem sizeOf_lookup_lt (fields : List (String × JSValue)) (key : String)
    (v : JSValue) (h : fields.lookup key = some v) : sizeOf v < sizeOf fields := by
  induction fields with
  | nil => simp [List.lookup] at h
  | cons kv rest ih =>
    rw [List.lookup] at h
    split at h
    · obtain ⟨a, b⟩ := kv
      cases h
      simp
      omega
    · have := ih h
      simp
      omega

theorem sizeOf_getD_lt (elems : List JSValue) (i : Nat) :
    sizeOf (elems.getD i JSValue.undefined) < 1 + sizeOf elems := by
  induction elems generalizing i with
  | nil => simp [List.getD]
  | cons x rest ih =>
    cases i with
    | zero => simp [List.getD]; omega
    | succ j =>
      have := ih j
      simp [List.getD] at this ⊢
      omega

theorem getProp_obj_sizeOf_lt (fields : List (String × JSValue))
    (key : String) :
    sizeOf (getProp (.obj fields) key) < sizeOf (JSValue.obj fields) := by
  have hpos : 0 < sizeOf fields := by cases fields <;> simp
  simp only [getProp]
  rcases hl : fields.lookup key with _ | w <;> simp
  · omega
  · have := sizeOf_lookup_lt fields key w hl
    omega

theorem getProp_arr_sizeOf_lt (elems : List JSValue) (key : String) :
    sizeOf (getProp (.arr elems) key) < sizeOf (JSValue.arr elems) := by
  have hpos : 0 < sizeOf elems := by cases elems <;> simp
  simp only [getProp]
  rcases hn : key.toNat? with _ | i <;> simp
  · omega
  · split
    · have := sizeOf_getD_lt elems i
      simp [List.getD] at this
      omega
    · simp
      omega

/-- `expectationMatches(actual, expected)` from executor.ts: a primitive or
null `expected` requires strict equality; an object/array `expected`
requires `actual` to be a non-null object and every key of `expected` to
match recursively (deep sub-document matching; extra actual keys are
ignored). -/
def expectationMatches (actual expected : JSValue) : Bool :=
  match expected with
  | .arr eElems =>
    (match actual with
     | .arr _ | .obj _ =>
       (objKeys (.arr eElems)).all (fun key =>
         expectationMatches (getProp actual key) (getProp (.arr eElems) key))
     | _ => false)
  | .obj eFields =>
    (match actual with
     | .arr _ | .obj _ =>
       (objKeys (.obj eFields)).all (fun key =>
         expectationMatches (getProp actual key) (getProp (.obj eFields) key))
     | _ => false)
  | other => jsStrictEq actual other
termination_by sizeOf expected
decreasing_by
  all_goals first
    | exact getProp_arr_sizeOf_lt _ key
    | exact getProp_obj_sizeOf_lt _ key

/-! ## Action interpretation (`applyAction` from executor.ts) -/

/-- The dynamic conflict map `priorWrites`: written path ↦
`(actionId, ruleId)` (a JS `Map`; `set` replaces, `get` looks up). -/
abbrev PriorWrites := List (String × String × String)

/-- The conflict warning string template of `applyAction`. -/
def conflictWarning (path prevRuleId prevActionId ruleId actionId : String) :
    String :=
  "Conflict on " ++ path ++ ": previously written by " ++ prevRuleId ++
    " (" ++ prevActionId ++ "), now by " ++ ruleId ++ " (" ++ actionId ++ ")."

/-- The `{ trace, diffs, log?, warning? }` return of `applyAction`, plus the
updated fact store and conflict map (mutated in place in the source). -/
structure ApplyResult where
  trace : ActionTrace
  diffs : List StateDiff
  log : Option NormalizedActionLog
  warning : Option String
  data : JSValue
  priorWrites : PriorWrites

/-- `applyAction(action, data, ruleId, actionId, enableActions, priorWrites)`
from executor.ts.  Each branch mirrors the corresponding `case`:
`markConflict` is the lookup in `priorWrites` before the write of the current
action is recorded, and the write is recorded only when `enableActions`.
(The JS route-merge spreads any non-null object; spreading an *array* into
the route slot — index keys — is not modelled.) -/
def applyAction (action : Action) (data : JSValue) (ruleId actionId : String)
    (enableActions : Bool) (priorWrites : PriorWrites) : ApplyResult :=
  match action with
  | .set target value =>
    let targetValue := evaluateOperand data value
    let (data', previous) :=
      if enableActions then setPathValue data target targetValue
      else (data, getPathValue data target)
    let next := targetValue
    let diffs : List StateDiff :=
      if enableActions && !(jsStrictEq previous next) then
        [⟨target, previous, next⟩]
      else []
    let conflict := priorWrites.lookup target
    let priorWrites' :=
      if enableActions then assocSet priorWrites target (actionId, ruleId)
      else priorWrites
    let warning := conflict.map (fun c => conflictWarning target c.2 c.1 ruleId actionId)
    { trace := { action := action, applied := enableActions,
                 path := some target, beforeValue := some previous,
                 afterValue := some (if enableActions then next else previous),
                 actionId := actionId, ruleId := ruleId,
                 conflict := some conflict.isSome },
      diffs := diffs,
      log := if enableActions then
          some { actionId := actionId, ruleId := ruleId, kind := "set",
                 path := some target, before := some previous,
                 after := some next }
        else none,
      warning := warning, data := data', priorWrites := priorWrites' }
  | .increment target value =>
    let current := getPathValue data target
    let next : JSValue :=
      match current with
      | .num n => .num (n + value)
      | _ => .num value
    let (data', diffs) :=
      if enableActions then
        let (d, previous) := setPathValue data target next
        (d, [(⟨target, previous, next⟩ : StateDiff)])
      else (data, [])
    let conflict := priorWrites.lookup target
    let priorWrites' :=
      if enableActions then assocSet priorWrites target (actionId, ruleId)
      else priorWrites
    let warning := conflict.map (fun c => conflictWarning target c.2 c.1 ruleId actionId)
    { trace := { action := action, applied := enableActions,
                 path := some target, beforeValue := some current,
                 afterValue := some (if enableActions then next else current),
                 actionId := actionId, ruleId := ruleId,
                 conflict := some conflict.isSome },
      diffs := diffs,
      log := if enableActions then
          some { actionId := actionId, ruleId := ruleId, kind := "increment",
                 path := some target, before := some current,
                 after := some next }
        else none,
      warning := warning, data := data', priorWrites := priorWrites' }
  | .append target value =>
    let current := getPathValue data target
    let valueToAppend := evaluateOperand data value
    let nextArray : JSValue :=
      match current with
      | .arr elems => .arr (elems ++ [valueToAppend])
      | _ => .arr [valueToAppend]
    let beforeValue : JSValue :=
      match current with
      | .arr elems => .arr elems
      | .undefined => .arr []
      | other => other
    let (data', diffs) :=
      if enableActions then
        ((setPathValue data target nextArray).1,
         [(⟨target, beforeValue, nextArray⟩ : StateDiff)])
      else (data, [])
    let conflict := priorWrites.lookup target
    let priorWrites' :=
      if enableActions then assocSet priorWrites target (actionId, ruleId)
      else priorWrites
    let warning := conflict.map (fun c => conflictWarning target c.2 c.1 ruleId actionId)
    { trace := { action := action, applied := enableActions,
                 path := some target, beforeValue := some beforeValue,
                 afterValue := some (if enableActions then nextArray else beforeValue),
                 actionId := actionId, ruleId := ruleId,
                 conflict := some conflict.isSome },
      diffs := diffs,
      log := if enableActions then
          some { actionId := actionId, ruleId := ruleId, kind := "append",
                 path := some target, before := some beforeValue,
                 after := some nextArray }
        else none,
      warning := warning, data := data', priorWrites := priorWrites' }
  | .emit event payload =>
    { trace := { action := action, applied := enableActions,
                 actionId := actionId, ruleId := ruleId },
      diffs := [],
      log := if enableActions then
          some { actionId := actionId, ruleId := ruleId, kind := "emit",
                 payload := some (payload.getD []), path := some event }
        else none,
      warning := none, data := data, priorWrites := priorWrites }
  | .route toQueue reason =>
    let beforeRoute := getPathValue data "route"
    let prevFields :=
      match beforeRoute with
      | .obj fields => fields
      | _ => []
    let nextRoute : JSValue :=
      .obj (assocSet (assocSet prevFields "toQueue" (.str toQueue)) "reason"
        (match reason with | some r => .str r | none => .undefined))
    let (data', diffs) :=
      if enableActions then
        ((setPathValue data "route" nextRoute).1,
         [(⟨"route", beforeRoute, nextRoute⟩ : StateDiff)])
      else (data, [])
    let conflict := priorWrites.lookup "route"
    let priorWrites' :=
      if enableActions then assocSet priorWrites "route" (actionId, ruleId)
      else priorWrites
    let warning := conflict.map (fun c => conflictWarning "route" c.2 c.1 ruleId actionId)
    { trace := { action := action, applied := enableActions,
                 path := some "route", beforeValue := some beforeRoute,
                 afterValue := some (if enableActions then nextRoute else beforeRoute),
                 actionId := actionId, ruleId := ruleId,
                 conflict := some conflict.isSome },
      diffs := diffs,
      log := if enableActions then
          some { actionId := actionId, ruleId := ruleId, kind := "route",
                 path := some "route", before := some beforeRoute,
                 after := some nextRoute }
        else none,
      warning := warning, data := data', priorWrites := priorWrites' }

/-! ## Constraint checking (`evaluateConstraints` from executor.ts) -/

/-- The body of the `constraints.forEach` loop of `evaluateConstraints`:
threads `(passed, failed, errorCount, warningCount)`. -/
def constraintStep (re : RegexEngine) (data : JSValue)
    (acc : List ConstraintResult × List ConstraintResult × Nat × Nat)
    (c : Constraint) :
    List ConstraintResult × List ConstraintResult × Nat × Nat :=
  let trace := evaluateCondition re c.assert data
  let entry : ConstraintResult := ⟨c, trace.result, trace⟩
  if trace.result then
    (acc.1 ++ [entry], acc.2.1, acc.2.2.1, acc.2.2.2)
  else if (c.severity.getD "error") == "error" then
    (acc.1, acc.2.1 ++ [entry], acc.2.2.1 + 1, acc.2.2.2)
  else
    (acc.1, acc.2.1 ++ [entry], acc.2.2.1, acc.2.2.2 + 1)

/-- `evaluateConstraints(constraints, data)`: buckets each constraint by the
result of its `assert` condition; a failing constraint counts as an error
when `(severity ?? 'error') === 'error'`, else as a warning. -/
def evaluateConstraints (re : RegexEngine)
    (constraints : Option (List Constraint)) (data : JSValue) :
    ConstraintReport :=
  match constraints with
  | none => ⟨[], [], false, false, 0, 0⟩
  | some cs =>
    let folded := cs.foldl (constraintStep re data) ([], [], 0, 0)
    ⟨folded.1, folded.2.1, !folded.2.1.isEmpty, decide (0 < folded.2.2.1),
     folded.2.2.1, folded.2.2.2⟩

/-! ## Rule ordering and mode (`sortRules`, `normalizeMode`) -/

/-- Effective priority: `rule.priority ?? 0`. -/
def effPriority (r : Rule) : Int := r.priority.getD 0

/-- The total preorder realised by the `sortRules` comparator
`(a, b) => (prioB - prioA) || a.id.localeCompare(b.id)`:
higher priority first, ties by ascending id (`localeCompare` modelled as
code-point order; the engine's rule ids are plain ASCII identifiers). -/
def ruleLE (a b : Rule) : Prop :=
  effPriority b < effPriority a ∨ (effPriority a = effPriority b ∧ a.id ≤ b.id)

instance : DecidableRel ruleLE := fun a b => by
  unfold ruleLE; infer_instance

/-- `sortRules(rules)`: a sort of a copy of `rules` by the comparator above
(insertion sort realises the same sorted order as `Array.prototype.sort`
under this total preorder). -/
def sortRules (rules : List Rule) : List Rule :=
  List.insertionSort ruleLE rules

/-- `normalizeMode(mode)`: `'first' | 'firstMatch' ↦ 'firstMatch'`,
anything else (including absent) ↦ `'allMatches'`. -/
def normalizeMode (mode : Option String) : String :=
  match mode with
  | some "first" => "firstMatch"
  | some "firstMatch" => "firstMatch"
  | _ => "allMatches"

/-! ## The pass scheduler (`executePass` and the pass loop of `runProgram`) -/

/-- The mutable variables of `runProgram` that `executePass` closes over. -/
structure ExecState where
  data : JSValue
  actions : List NormalizedActionLog
  traces : List RuleTrace
  priorWrites : PriorWrites
  conflictWarnings : List String
  firings : Nat
  hitRuleLimit : Bool

/-- The `{ fired, mutated, stopEarly }` result of one `executePass`. -/
structure PassResult where
  fired : Bool
  mutated : Bool
  stopEarly : Bool

/-- The per-execution constants read by `executePass`. -/
structure ExecCtx where
  re : RegexEngine
  sortedRules : List Rule
  enableActions : Bool
  mode : String
  maxRuleFirings : Int

/-- The inner `for (const action of ruleActions)` loop of `executePass`:
builds the per-rule `actionTraces`, `stateDiffs` and `warnings` while pushing
logs and conflict warnings into the execution-wide state.  The action id is
`act-${actions.length + actionTraces.length + 1}` computed before the
action is applied. -/
def applyRuleActions (ctx : ExecCtx) (ruleId : String) :
    List Action → ExecState → List ActionTrace → List StateDiff →
    List String →
    (ExecState × List ActionTrace × List StateDiff × List String)
  | [], s, actionTraces, stateDiffs, warnings =>
    (s, actionTraces, stateDiffs, warnings)
  | action :: rest, s, actionTraces, stateDiffs, warnings =>
    let actionId := "act-" ++ toString (s.actions.length + actionTraces.length + 1)
    let r := applyAction action s.data ruleId actionId ctx.enableActions
      s.priorWrites
    let s' := { s with
      data := r.data,
      priorWrites := r.priorWrites,
      actions := s.actions ++ (match r.log with | some l => [l] | none => []),
      conflictWarnings := s.conflictWarnings ++
        (match r.warning with | some w => [w] | none => []) }
    applyRuleActions ctx ruleId rest s' (actionTraces ++ [r.trace])
      (stateDiffs ++ r.diffs)
      (warnings ++ (match r.warning with | some w => [w] | none => []))

/-- `ruleActions = matched ? rule.then ?? rule.actions ?? [] : rule.else ?? []`. -/
def ruleActionsOf (rule : Rule) (matched : Bool) : List Action :=
  if matched then rule.thenActions.getD (rule.actions.getD [])
  else rule.elseActions.getD []

/-- `if (matched) firings += 1`. -/
def ruleState0 (matched : Bool) (s : ExecState) : ExecState :=
  if matched then { s with firings := s.firings + 1 } else s

/-- The RuleTrace pushed for one rule. -/
def ruleTraceOf (rule : Rule) (matched : Bool) (why : ConditionTrace)
    (actionTraces : List ActionTrace) (stateDiffs : List StateDiff)
    (warnings : List String) : RuleTrace :=
  { ruleId := rule.id, ruleName := rule.name, priority := rule.priority,
    evaluatedWhen := matched, why := why,
    actionsApplied := actionTraces, stateDiff := stateDiffs,
    stopProcessing := if matched then rule.stopProcessing else none,
    warnings := if warnings.isEmpty then none else some warnings }

/-- The body of the `for (const rule of sortedRules)` loop for one rule,
before the break checks: evaluates `when`, picks `then ?? actions ?? []` on
a match and `else ?? []` otherwise, counts a firing once per matched rule,
applies the actions, and pushes the RuleTrace.  Returns the updated state,
the `matched` flag, and the rule's `stateDiffs`. -/
def ruleOutcome (ctx : ExecCtx) (rule : Rule) (s : ExecState) :
    ExecState × Bool × List StateDiff :=
  let conditionTrace := evaluateCondition ctx.re rule.when s.data
  let matched := conditionTrace.result
  let applied := applyRuleActions ctx rule.id (ruleActionsOf rule matched)
    (ruleState0 matched s) [] [] []
  ({ applied.1 with traces := applied.1.traces ++
      [ruleTraceOf rule matched conditionTrace applied.2.1 applied.2.2.1
        applied.2.2.2] },
   matched, applied.2.2.1)

/-- The `for (const rule of sortedRules)` loop of `executePass`: one
`ruleOutcome` per rule, breaking early on the firing cap, a `firstMatch`
effective rule mode, or `stopProcessing`. -/
def runRules (ctx : ExecCtx) :
    List Rule → ExecState → Bool → Bool → (ExecState × PassResult)
  | [], s, fired, mutated => (s, ⟨fired, mutated, false⟩)
  | rule :: rest, s, fired, mutated =>
    let outcome := ruleOutcome ctx rule s
    let s₂ := outcome.1
    let matched := outcome.2.1
    let fired' := fired || matched
    let mutated' := mutated || (ctx.enableActions && !outcome.2.2.isEmpty)
    if (s₂.firings : Int) ≥ ctx.maxRuleFirings then
      ({ s₂ with hitRuleLimit := true }, ⟨fired', mutated', true⟩)
    else
      let ruleMode :=
        match rule.mode with
        | some m => normalizeMode (some m)
        | none => ctx.mode
      if matched && (ruleMode == "firstMatch" || rule.stopProcessing.getD false)
      then (s₂, ⟨fired', mutated', true⟩)
      else runRules ctx rest s₂ fired' mutated'

/-- `executePass()`. -/
def executePass (ctx : ExecCtx) (s : ExecState) : ExecState × PassResult :=
  runRules ctx ctx.sortedRules s false false

/-- The pass loop of `runProgram`:
`let passResult = executePass();`
`while (loopUntilSettled && passResult.mutated && !passResult.stopEarly && !hitRuleLimit) passResult = executePass();`
The source has no fuel: `fuel` bounds only the number of *re-runs*, and
`none` means the JavaScript loop is still running after `fuel` repeat
passes.  The loop terminates (with any fuel, in particular `0`) whenever the
guard fails after a pass. -/
def runPasses (ctx : ExecCtx) (loopUntilSettled : Bool) :
    Nat → ExecState → Option ExecState
  | fuel, s =>
    if loopUntilSettled && (executePass ctx s).2.mutated &&
        !(executePass ctx s).2.stopEarly &&
        !(executePass ctx s).1.hitRuleLimit then
      match fuel with
      | 0 => none
      | f + 1 => runPasses ctx loopUntilSettled f (executePass ctx s).1
    else some (executePass ctx s).1

/-! ## Execution results and entry points -/

/-- `ExampleResult` from types.ts (the source field `example` is a Lean
keyword; it is called `ex` here). -/
structure ExampleResult where
  ex : Example
  passed : Bool
  actualOutput : JSValue
  constraints : ConstraintReport
  trace : List RuleTrace
deriving Repr

/-- `ExecutionResult` from types.ts (fields that `runProgram` always sets
are non-optional here). -/
structure ExecutionResult where
  resultState : JSValue
  actions : List NormalizedActionLog
  trace : List RuleTrace
  constraintReport : ConstraintReport
  testReport : Option (List ExampleResult)
  success : Bool
  conflictWarnings : Option (List String)
  ruleFirings : Nat
  hitRuleLimit : Bool
deriving Repr

instance : Inhabited ConditionTrace := ⟨.mk (.allC []) false none none⟩

instance : Inhabited ConstraintReport := ⟨[], [], false, false, 0, 0⟩

instance : Inhabited ExecutionResult :=
  ⟨.undefined, [], [], default, none, false, none, 0, false⟩

/-- The `ExecutionResult` literal returned by `runProgram`
(executor.ts lines 424–434) as a function of the final loop state,
minus the `testReport` field handled by `attachTestReport`. -/
def finishRun (re : RegexEngine) (program : Program) (s : ExecState) :
    ExecutionResult :=
  let constraintReport := evaluateConstraints re program.constraints s.data
  { resultState := s.data,
    actions := s.actions,
    trace := s.traces,
    constraintReport := constraintReport,
    testReport := none,
    success := !(constraintReport.hasErrors || s.hitRuleLimit),
    conflictWarnings :=
      if s.conflictWarnings.isEmpty then none else some s.conflictWarnings,
    ruleFirings := s.firings,
    hitRuleLimit := s.hitRuleLimit }

/-- The `ExecCtx` assembled by the head of `runProgram`. -/
def mkCtx (re : RegexEngine) (program : Program)
    (options : ExecutionOptions) : ExecCtx :=
  ⟨re, sortRules program.rules,
   options.enableActions.getD false,
   options.mode.getD (normalizeMode (program.config.map (·.ruleEvaluation))),
   options.maxRuleFirings.getD 1000⟩

/-- The initial loop state of `runProgram`: a fresh deep copy of the input,
empty logs/traces/conflict map, zero firings. -/
def initState (input : JSValue) : ExecState :=
  ⟨cloneInput input, [], [], [], [], 0, false⟩

/-- `runProgram(program, input, options)` from executor.ts, minus the
`testReport` field (attached by `runProgram` below; the recursion
`runProgram → runExample → runProgram` is broken here exactly as in the
source, where the inner call never sets `evaluateExamples`). -/
def runProgramBase (re : RegexEngine) (fuel : Nat) (program : Program)
    (input : JSValue) (options : ExecutionOptions) : Option ExecutionResult :=
  (runPasses (mkCtx re program options) (options.loopUntilSettled.getD false)
    fuel (initState input)).map (finishRun re program)

/-- `runExample(program, example)` from executor.ts: runs the program on the
example input with `{ enableActions: true }` (so `loopUntilSettled` is
absent: the pass loop runs exactly once and no fuel is consumed — the
`getD default` branch is definitionally dead). -/
def runExample (re : RegexEngine) (program : Program) (ex : Example) :
    ExampleResult :=
  let result := (runProgramBase re 0 program ex.input
    { enableActions := some true }).getD default
  let constraintFailures := result.constraintReport.failed.filter
    (fun c => (c.constraint.severity.getD "error") == "error")
  let passed := expectationMatches result.resultState ex.expected &&
    constraintFailures.isEmpty
  ⟨ex, passed, result.resultState, result.constraintReport, result.trace⟩

/-- The `testReport` attachment
(`options?.evaluateExamples ? program.examples?.map(runExample) : undefined`). -/
def attachTestReport (re : RegexEngine) (program : Program)
    (options : ExecutionOptions) (r : ExecutionResult) : ExecutionResult :=
  { r with testReport :=
      if options.evaluateExamples.getD false then
        program.examples.map (fun exs => exs.map (runExample re program))
      else none }

/-- `runProgram` including the `testReport` field. -/
def runProgram (re : RegexEngine) (fuel : Nat) (program : Program)
    (input : JSValue) (options : ExecutionOptions) : Option ExecutionResult :=
  (runProgramBase re fuel program input options).map
    (attachTestReport re program options)

/-- `runExamples(program)` from executor.ts. -/
def runExamples (re : RegexEngine) (program : Program) : List ExampleResult :=
  match program.examples with
  | none => []
  | some [] => []
  | some exs => exs.map (runExample re program)

/-! ## Coverage (`assessRuleCoverage` from coverage.ts) -/

/-- `RuleCoverage` from types.ts. -/
structure RuleCoverage where
  ruleId : String
  matchedInExamples : Nat
  totalExamples : Nat
  coveragePercent : Int
deriving Repr, DecidableEq

/-- `assessRuleCoverage(program)` from coverage.ts, executed against the
`runProgram` of executor.ts (its `./executor` import).

The source returns `[]` when `program.examples` is absent or empty.
Otherwise, for each example it calls `runProgram(program, example.input)`
and then iterates `result.firedRules` — but the `ExecutionResult` built by
executor.ts has no `firedRules` field (the rule traces live in `trace`,
with `evaluatedWhen`/`ruleId` instead of `matched`/`rule.id`; `firedRules`
belongs to the legacy executor variant).  The property read therefore
yields `undefined`, and `undefined.forEach(...)` throws a `TypeError` on
the very first example, before any count is accumulated.  The `Except`
error models that thrown exception. -/
def assessRuleCoverage (_re : RegexEngine) (program : Program) :
    Except String (List RuleCoverage) :=
  match program.examples with
  | none => .ok []
  | some [] => .ok []
  | some (_ :: _) =>
    .error "TypeError: runProgram result has no firedRules field"

/-! ## Static conflict detection (`detectConflictingSetActions` from the
legacy validator module, translate.ts)

That module is written against the *legacy* AST variant (required
`rule.actions`, `SetAction.value: ValueOperand` with a literal
`string | number | boolean` value), so its data model is embedded separately
here. -/

namespace Legacy

/-- Legacy `ValueOperand.value`: `string | number | boolean`. -/
inductive LValue where
  | str (s : String)
  | num (n : Int)
  | bool (b : Bool)
deriving DecidableEq, Repr

/-- Legacy `ValueOperand {kind:'value', value, units?}`.  The source compares
two of these with `JSON.stringify(a) !== JSON.stringify(b)`; for operands
built with the canonical key order this is structural equality of
`(value, units)` (an absent `units` is omitted by `stringify`), which is the
derived equality here. -/
structure ValueOperand where
  value : LValue
  units : Option String := none
deriving DecidableEq, Repr

/-- Legacy `Action`: `set` / `emit` / `route` (`route` uses `queue`). -/
inductive LAction where
  | set (target : String) (value : ValueOperand)
  | emit (event : String)
  | route (queue : String)
deriving Repr

/-- Legacy `Rule` — only the fields read by `detectConflictingSetActions`
(`when` and the remaining fields are never inspected by it). -/
structure LRule where
  id : String
  name : String
  priority : Option Int := none
  actions : List LAction
deriving Repr

/-- Legacy `Program`, restricted to the `rules` field — the only one
`detectConflictingSetActions` reads. -/
structure LProgram where
  rules : List LRule

/-- The data interpolated into one conflict message string
`Conflicting set actions on "<target>" between rules <ruleA> and <ruleB>
with the same priority. …` -/
structure Conflict where
  target : String
  ruleA : String
  ruleB : String
deriving DecidableEq, Repr

/-- `rule.actions.filter(a => a.kind === 'set')`, keeping target and value. -/
def setActions (r : LRule) : List (String × ValueOperand) :=
  r.actions.filterMap fun a =>
    match a with
    | .set t v => some (t, v)
    | _ => none

/-- The body of the inner `j` loop for one ordered rule pair: skipped when
effective priorities (`priority ?? 0`) differ; otherwise one conflict per
pair of `set` actions (one from each rule) on the same target with
`JSON.stringify`-different values, in the source's nested-`forEach`
order. -/
def pairConflicts (ruleA ruleB : LRule) : List Conflict :=
  if ruleA.priority.getD 0 ≠ ruleB.priority.getD 0 then []
  else
    (setActions ruleA).flatMap fun a =>
      (setActions ruleB).filterMap fun b =>
        if a.1 = b.1 ∧ a.2 ≠ b.2 then some ⟨a.1, ruleA.id, ruleB.id⟩
        else none

/-- The nested index loops `for i … for j = i+1 …` of
`detectConflictingSetActions`. -/
def detectAux : List LRule → List Conflict
  | [] => []
  | r :: rest => rest.flatMap (pairConflicts r) ++ detectAux rest

/-- `detectConflictingSetActions(program)` from translate.ts (each
`Conflict` is formatted into one pushed message string; `validateProgram`
appends every one of them to its `errors`). -/
def detectConflictingSetActions (p : LProgram) : List Conflict :=
  detectAux p.rules

/-- Does a conflict message reference exactly the two given rule ids? -/
def refersToPair (c : Conflict) (x y : String) : Bool :=
  (c.ruleA == x && c.ruleB == y) || (c.ruleA == y && c.ruleB == x)

/-- How many of the emitted conflict messages reference both given rule
ids. -/
def countPair (l : List Conflict) (x y : String) : Nat :=
  l.countP (fun c => refersToPair c x y)

/-- How many pairs of `set` actions — one from each rule — target the same
path with differing (`JSON.stringify`-distinct) literal values.  This is the
number of conflicts the inner double `forEach` of
`detectConflictingSetActions` emits for one same-priority rule pair. -/
def conflictingPairCount (A B : LRule) : Nat :=
  ((setActions A).map (fun a =>
    (setActions B).countP (fun b => decide (a.1 = b.1 ∧ a.2 ≠ b.2)))).sum

end Legacy

/-! ## Support lemmas -/

theorem attachTestReport_success (re : RegexEngine) (p : Program)
    (o : ExecutionOptions) (r : ExecutionResult) :
    (attachTestReport re p o r).success = r.success := rfl

theorem attachTestReport_constraintReport (re : RegexEngine) (p : Program)
    (o : ExecutionOptions) (r : ExecutionResult) :
    (attachTestReport re p o r).constraintReport = r.constraintReport := rfl

theorem attachTestReport_hitRuleLimit (re : RegexEngine) (p : Program)
    (o : ExecutionOptions) (r : ExecutionResult) :
    (attachTestReport re p o r).hitRuleLimit = r.hitRuleLimit := rfl

theorem attachTestReport_resultState (re : RegexEngine) (p : Program)
    (o : ExecutionOptions) (r : ExecutionResult) :
    (attachTestReport re p o r).resultState = r.resultState := rfl

theorem attachTestReport_actions (re : RegexEngine) (p : Program)
    (o : ExecutionOptions) (r : ExecutionResult) :
    (attachTestReport re p o r).actions = r.actions := rfl

theorem attachTestReport_trace (re : RegexEngine) (p : Program)
    (o : ExecutionOptions) (r : ExecutionResult) :
    (attachTestReport re p o r).trace = r.trace := rfl

theorem attachTestReport_conflictWarnings (re : RegexEngine) (p : Program)
    (o : ExecutionOptions) (r : ExecutionResult) :
    (attachTestReport re p o r).conflictWarnings = r.conflictWarnings := rfl

theorem finishRun_success (re : RegexEngine) (p : Program) (s : ExecState) :
    (finishRun re p s).success =
      !((evaluateConstraints re p.constraints s.data).hasErrors ||
        s.hitRuleLimit) := rfl

theorem finishRun_constraintReport (re : RegexEngine) (p : Program)
    (s : ExecState) :
    (finishRun re p s).constraintReport =
      evaluateConstraints re p.constraints s.data := rfl

theorem finishRun_hitRuleLimit (re : RegexEngine) (p : Program)
    (s : ExecState) :
    (finishRun re p s).hitRuleLimit = s.hitRuleLimit := rfl

theorem finishRun_resultState (re : RegexEngine) (p : Program)
    (s : ExecState) :
    (finishRun re p s).resultState = s.data := rfl

theorem finishRun_actions (re : RegexEngine) (p : Program) (s : ExecState) :
    (finishRun re p s).actions = s.actions := rfl

theorem finishRun_trace (re : RegexEngine) (p : Program) (s : ExecState) :
    (finishRun re p s).trace = s.traces := rfl

theorem finishRun_conflictWarnings (re : RegexEngine) (p : Program)
    (s : ExecState) :
    (finishRun re p s).conflictWarnings =
      (if s.conflictWarnings.isEmpty then none
       else some s.conflictWarnings) := rfl

/-- Inversion of a successful `runProgram` call into the final loop state. -/
theorem runProgram_some_inv (re : RegexEngine) (fuel : Nat) (p : Program)
    (i : JSValue) (o : ExecutionOptions) (r : ExecutionResult)
    (h : runProgram re fuel p i o = some r) :
    ∃ s, runPasses (mkCtx re p o) (o.loopUntilSettled.getD false) fuel
        (initState i) = some s ∧
      r = attachTestReport re p o (finishRun re p s) := by
  unfold runProgram runProgramBase at h
  rcases Option.map_eq_some'.mp h with ⟨rb, hb, hattach⟩
  rcases Option.map_eq_some'.mp hb with ⟨s, hs, hfin⟩
  exact ⟨s, hs, by rw [← hattach, ← hfin]⟩

/-- Does a failed constraint count as error severity
(`(severity ?? 'error') === 'error'`)? -/
def isErrorSeverity (c : ConstraintResult) : Bool :=
  (c.constraint.severity.getD "error") == "error"

theorem constraintFold_inv (re : RegexEngine) (data : JSValue)
    (cs : List Constraint) :
    ∀ acc : List ConstraintResult × List ConstraintResult × Nat × Nat,
      acc.2.2.1 = (acc.2.1.filter isErrorSeverity).length →
      (cs.foldl (constraintStep re data) acc).2.2.1 =
        ((cs.foldl (constraintStep re data) acc).2.1.filter
          isErrorSeverity).length := by
  induction cs with
  | nil => intro acc h; simpa using h
  | cons c rest ih =>
    intro acc h
    simp only [List.foldl_cons]
    apply ih
    by_cases hres : (evaluateCondition re c.assert data).result = true
    · simpa [constraintStep, hres] using h
    · by_cases hsev : ((c.severity.getD "error") == "error") = true
      · simp [constraintStep, hres, hsev, List.filter_append, isErrorSeverity, h]
      · simp [constraintStep, hres, hsev, List.filter_append, isErrorSeverity, h]

theorem evaluateConstraints_errorCount (re : RegexEngine)
    (ocs : Option (List Constraint)) (data : JSValue) :
    (evaluateConstraints re ocs data).errorCount =
      ((evaluateConstraints re ocs data).failed.filter
        isErrorSeverity).length := by
  cases ocs with
  | none => rfl
  | some cs =>
    simp only [evaluateConstraints]
    exact constraintFold_inv re data cs ([], [], 0, 0) rfl

theorem evaluateConstraints_hasErrors (re : RegexEngine)
    (ocs : Option (List Constraint)) (data : JSValue) :
    (evaluateConstraints re ocs data).hasErrors =
      decide (0 < (evaluateConstraints re ocs data).errorCount) := by
  cases ocs <;> rfl

/-! ## Claim C5 — `Compare` conditions: missing operands and numeric
operators -/

theorem numMatch_inv (l r : JSValue) (f : Int → Int → Bool)
    (h : (match l, r with
          | JSValue.num a, JSValue.num b => f a b
          | _, _ => false) = true) :
    (∃ a, l = JSValue.num a) ∧ (∃ b, r = JSValue.num b) := by
  cases l <;> cases r <;> simp_all

/-- **C5.** In every `Compare` condition, if either operand resolves to
missing (`undefined`), the comparison evaluates to `false` rather than
raising; and the numeric operators `>`, `>=`, `<`, `<=` (in either
spelling) evaluate to `false` unless both resolved operands are numbers:
a `true` result forces both to be numbers. -/
theorem C5_compare_missing_and_numeric (re : RegexEngine) (data : JSValue)
    (lhs rhs : Operand) (operator : String) :
    ((evaluateOperand data lhs = .undefined ∨ evaluateOperand data rhs = .undefined) →
      (evaluateCondition re (.compare lhs operator rhs) data).result = false) ∧
    ((operator = "gt" ∨ operator = ">" ∨ operator = "gte" ∨ operator = ">=" ∨
      operator = "lt" ∨ operator = "<" ∨ operator = "lte" ∨ operator = "<=") →
      (evaluateCondition re (.compare lhs operator rhs) data).result = true →
      (∃ a, evaluateOperand data lhs = .num a) ∧
      (∃ b, evaluateOperand data rhs = .num b)) := by
  have hres : (evaluateCondition re (.compare lhs operator rhs) data).result =
      (if !(evaluateOperand data lhs).isUndefined &&
          !(evaluateOperand data rhs).isUndefined then
        evaluateComparison (evaluateOperand data lhs) operator
          (evaluateOperand data rhs)
      else false) := rfl
  constructor
  · intro h
    rcases h with h | h <;> rw [hres, h] <;> simp [JSValue.isUndefined]
  · intro hop htrue
    rw [hres] at htrue
    have hcomp : evaluateComparison (evaluateOperand data lhs) operator
        (evaluateOperand data rhs) = true := by
      by_cases hg : (!(evaluateOperand data lhs).isUndefined &&
          !(evaluateOperand data rhs).isUndefined) = true
      · rwa [if_pos hg] at htrue
      · rw [if_neg hg] at htrue
        exact absurd htrue (by simp)
    rcases hop with rfl | rfl | rfl | rfl | rfl | rfl | rfl | rfl <;>
      exact numMatch_inv _ _ _ hcomp

/-- Witness for C5 at concrete inputs: a `>` comparison whose left operand
path is missing is `false`, and a `>` comparison between a string and a
number is reported non-numeric. -/
theorem C5_witness :
    ((evaluateCondition noRegex
        (.compare (.fact "order.total" none) ">" (.value (.num 3) none))
        (.obj [])).result = false) ∧
    ¬((evaluateCondition noRegex
        (.compare (.value (.str "9") none) ">" (.value (.num 3) none))
        (.obj [])).result = true) := by
  constructor
  · exact (C5_compare_missing_and_numeric noRegex (.obj [])
      (.fact "order.total" none) (.value (.num 3) none) ">").1 (Or.inl rfl)
  · intro h
    have := (C5_compare_missing_and_numeric noRegex (.obj [])
      (.value (.str "9") none) (.value (.num 3) none) ">").2
      (Or.inr (Or.inl rfl)) h
    rcases this.1 with ⟨a, ha⟩
    exact absurd ha (by simp [evaluateOperand, Prim.toJS])

/-! ## Claim C7 — malformed `matches` patterns degrade to substring
containment -/

/-- **C7.** For every `Matches` condition whose pattern fails to compile
(`RegexEngine.compile = none`, modelling `new RegExp` throwing), evaluation
returns the ordinary trace whose result is plain substring containment of
the pattern in the resolved value (and `false` for a non-string value);
the compile failure itself appears nowhere in the produced trace. -/
theorem C7_matches_fallback (re : RegexEngine) (data : JSValue)
    (value : Operand) (pattern : String) (caseInsensitive : Bool)
    (h : re.compile pattern caseInsensitive = none) :
    evaluateCondition re (.matches value pattern caseInsensitive) data =
      .mk (.matches value pattern caseInsensitive)
        (match evaluateOperand data value with
         | .str s => containsSubstr s pattern
         | _ => false)
        (some [("value", evaluateOperand data value),
               ("pattern", .str pattern)])
        none := by
  have hunfold : evaluateCondition re (.matches value pattern caseInsensitive)
      data =
      .mk (.matches value pattern caseInsensitive)
        (match evaluateOperand data value with
         | .str s =>
           (match re.compile pattern caseInsensitive with
            | some test => test s
            | none => containsSubstr s pattern)
         | _ => false)
        (some [("value", evaluateOperand data value),
               ("pattern", .str pattern)])
        none := rfl
  rw [hunfold, h]

/-- Witness for C7: on an always-failing compile, `matches` is substring
containment of the pattern (here `"[ab"` inside `"x[abc"`). -/
theorem C7_witness :
    evaluateCondition noRegex
        (.matches (.value (.str "x[abc") none) "[ab" false) (.obj []) =
      .mk (.matches (.value (.str "x[abc") none) "[ab" false)
        true
        (some [("value", .str "x[abc"), ("pattern", .str "[ab")])
        none := by
  have := C7_matches_fallback noRegex (.obj [])
    (.value (.str "x[abc") none) "[ab" false rfl
  rw [this]
  rfl

/-! ## Claim C9 — determinism -/

/-- **C9.** `runProgram` is deterministic: two calls on the same
`(program, input, options)` (and the same host regex engine and fuel)
return the same `ExecutionResult` — the embedded execution is a pure
function of its arguments, with no clock, randomness, or ambient state. -/
theorem C9_deterministic (re : RegexEngine) (fuel : Nat) (p : Program)
    (i : JSValue) (o : ExecutionOptions) (r₁ r₂ : ExecutionResult)
    (h₁ : runProgram re fuel p i o = some r₁)
    (h₂ : runProgram re fuel p i o = some r₂) : r₁ = r₂ := by
  rw [h₁] at h₂
  exact Option.some.inj h₂

/-- A one-rule program used to witness determinism. -/
def detProg : Program :=
  { rules := [{ id := "d1", name := "d1", when := .allC [],
                thenActions := some [] }] }

/-- The result of running `detProg` on the empty payload. -/
def detResult : ExecutionResult :=
  (runProgram noRegex 0 detProg (.obj []) emptyOptions).getD default

/-- Witness for C9 at a concrete execution. -/
theorem C9_witness : detResult = detResult :=
  C9_deterministic noRegex 0 detProg (.obj []) emptyOptions detResult
    detResult rfl rfl

/-! ## Claim C3 — `assessCoverage` crashes against the engine it imports -/

/-- A well-formed one-rule, one-example program for coverage assessment. -/
def covProg : Program :=
  { rules := [{ id := "r1", name := "r1", when := .allC [],
                thenActions := some [] }],
    examples := some [{ id := "e1", input := .obj [], expected := .obj [] }] }

/-- **C3 (code bug).** `assessRuleCoverage` does not return the per-rule
coverage records the claim describes: for any program with at least one
declared example (here a minimal one-rule, one-example program) the replay
loop reads `result.firedRules` — a field absent from the `ExecutionResult`
produced by the executor it imports — and throws a `TypeError` on the first
example instead of counting matches. -/
theorem C3_coverage_throws (re : RegexEngine) :
    assessRuleCoverage re covProg =
      Except.error "TypeError: runProgram result has no firedRules field" :=
  rfl

/-! ## Claim C2 — what makes `success` false -/

/-- An always-matching rule with no actions. -/
def capProg : Program :=
  { rules := [{ id := "a1", name := "a1", when := .allC [],
                thenActions := some [] }] }

/-- Options setting the rule-firing cap to 1. -/
def capOptions : ExecutionOptions := { maxRuleFirings := some 1 }

/-- The result of running `capProg` under a cap of 1. -/
def capResult : ExecutionResult :=
  (runProgram noRegex 0 capProg (.obj []) capOptions).getD default

/-- **C2 (counterexample).** The claim says reaching the rule-firing cap
does not make `success` false.  Running a single always-matching rule under
`maxRuleFirings = 1` hits the cap, fails no constraint whatsoever — yet
`success` is `false`, because executor.ts computes
`success: !(constraintReport.hasErrors || hitRuleLimit)`. -/
theorem C2_counterexample :
    runProgram noRegex 0 capProg (.obj []) capOptions = some capResult ∧
    capResult.hitRuleLimit = true ∧
    capResult.constraintReport.failed = [] ∧
    capResult.constraintReport.errorCount = 0 ∧
    capResult.success = false :=
  ⟨rfl, rfl, rfl, rfl, rfl⟩

/-- **C2 (amended).** `run` marks `success = false` exactly when at least
one error-severity constraint fails against the final state **or** the
rule-firing cap was reached; warn-severity failures still never affect
success (the error count equals the number of failed constraints whose
effective severity is `error`). -/
theorem C2_success_iff (re : RegexEngine) (fuel : Nat) (p : Program)
    (i : JSValue) (o : ExecutionOptions) (r : ExecutionResult)
    (h : runProgram re fuel p i o = some r) :
    (r.success = false ↔
      (0 < r.constraintReport.errorCount ∨ r.hitRuleLimit = true)) ∧
    r.constraintReport.errorCount =
      (r.constraintReport.failed.filter isErrorSeverity).length := by
  obtain ⟨s, _, rfl⟩ := runProgram_some_inv re fuel p i o r h
  constructor
  · rw [attachTestReport_success, attachTestReport_constraintReport,
      attachTestReport_hitRuleLimit, finishRun_success,
      finishRun_constraintReport, finishRun_hitRuleLimit,
      evaluateConstraints_hasErrors]
    cases s.hitRuleLimit <;>
      by_cases hc : 0 < (evaluateConstraints re p.constraints s.data).errorCount <;>
      simp [hc]
  · rw [attachTestReport_constraintReport, finishRun_constraintReport]
    exact evaluateConstraints_errorCount re p.constraints s.data

/-! ## Claim C8 — execution only touches a private deep copy of the
input -/

mutual
theorem cloneInput_idem : (v : JSValue) →
    cloneInput (cloneInput v) = cloneInput v
  | .undefined => rfl
  | .null => rfl
  | .bool _ => rfl
  | .num _ => rfl
  | .str _ => rfl
  | .arr elems => congrArg JSValue.arr (cloneElems_idem elems)
  | .obj fields => congrArg JSValue.obj (cloneFields_idem fields)

theorem cloneElems_idem : (l : List JSValue) →
    cloneElems (cloneElems l) = cloneElems l
  | [] => rfl
  | .undefined :: rest => congrArg (List.cons JSValue.null) (cloneElems_idem rest)
  | .null :: rest => congrArg (List.cons JSValue.null) (cloneElems_idem rest)
  | .bool b :: rest =>
    congrArg (List.cons (JSValue.bool b)) (cloneElems_idem rest)
  | .num n :: rest =>
    congrArg (List.cons (JSValue.num n)) (cloneElems_idem rest)
  | .str s :: rest =>
    congrArg (List.cons (JSValue.str s)) (cloneElems_idem rest)
  | .arr es :: rest => by
    show JSValue.arr (cloneElems (cloneElems es)) ::
        cloneElems (cloneElems rest) =
      JSValue.arr (cloneElems es) :: cloneElems rest
    rw [cloneElems_idem es, cloneElems_idem rest]
  | .obj fs :: rest => by
    show JSValue.obj (cloneFields (cloneFields fs)) ::
        cloneElems (cloneElems rest) =
      JSValue.obj (cloneFields fs) :: cloneElems rest
    rw [cloneFields_idem fs, cloneElems_idem rest]

theorem cloneFields_idem : (l : List (String × JSValue)) →
    cloneFields (cloneFields l) = cloneFields l
  | [] => rfl
  | (_, .undefined) :: rest => cloneFields_idem rest
  | (k, .null) :: rest =>
    congrArg (List.cons (k, JSValue.null)) (cloneFields_idem rest)
  | (k, .bool b) :: rest =>
    congrArg (List.cons (k, JSValue.bool b)) (cloneFields_idem rest)
  | (k, .num n) :: rest =>
    congrArg (List.cons (k, JSValue.num n)) (cloneFields_idem rest)
  | (k, .str s) :: rest =>
    congrArg (List.cons (k, JSValue.str s)) (cloneFields_idem rest)
  | (k, .arr es) :: rest => by
    show (k, JSValue.arr (cloneElems (cloneElems es))) ::
        cloneFields (cloneFields rest) =
      (k, JSValue.arr (cloneElems es)) :: cloneFields rest
    rw [cloneElems_idem es, cloneFields_idem rest]
  | (k, .obj fs) :: rest => by
    show (k, JSValue.obj (cloneFields (cloneFields fs))) ::
        cloneFields (cloneFields rest) =
      (k, JSValue.obj (cloneFields fs)) :: cloneFields rest
    rw [cloneFields_idem fs, cloneFields_idem rest]
end

/-- **C8.** The caller's input never aliases execution state: the only use
`runProgram` makes of `input` is `cloneInput(input)` at entry (executor.ts
line 341), so the whole result depends on the input only through its deep
copy — two inputs with the same deep copy produce the same result,
regardless of `enableActions` and every other option — and the copy is a
faithful JSON deep copy (cloning it again changes nothing).  Mutation of
the caller's object is unrepresentable in this embedding because `input` is
read exactly once, by value, at entry. -/
theorem C8_private_copy (re : RegexEngine) (fuel : Nat) (p : Program)
    (o : ExecutionOptions) :
    (∀ i i', cloneInput i = cloneInput i' →
      runProgram re fuel p i o = runProgram re fuel p i' o) ∧
    (∀ i, cloneInput (cloneInput i) = cloneInput i) := by
  constructor
  · intro i i' h
    unfold runProgram runProgramBase initState
    rw [h]
  · exact cloneInput_idem

/-- Witness for C8: an input with an `undefined`-valued property and the
empty payload have the same deep copy, hence identical executions. -/
theorem C8_witness :
    runProgram noRegex 0 detProg (.obj [("x", .undefined)]) emptyOptions =
      runProgram noRegex 0 detProg (.obj []) emptyOptions :=
  (C8_private_copy noRegex 0 detProg emptyOptions).1 _ _ rfl

/-- Witness for C2 (amended) at the concrete capped execution. -/
theorem C2_success_iff_witness :
    ((capResult.success = false ↔
      (0 < capResult.constraintReport.errorCount ∨
        capResult.hitRuleLimit = true)) ∧
    capResult.constraintReport.errorCount =
      (capResult.constraintReport.failed.filter isErrorSeverity).length) :=
  C2_success_iff noRegex 0 capProg (.obj []) capOptions capResult rfl

/-! ## Claim C10 — dry runs (enableActions unset/false) -/

theorem applyAction_disabled (action : Action) (data : JSValue)
    (ruleId actionId : String) (pw : PriorWrites) :
    (applyAction action data ruleId actionId false pw).data = data ∧
    (applyAction action data ruleId actionId false pw).priorWrites = pw ∧
    (applyAction action data ruleId actionId false pw).log = none ∧
    (applyAction action data ruleId actionId false pw).diffs = [] ∧
    (pw = [] → (applyAction action data ruleId actionId false pw).warning
      = none) := by
  cases action <;> exact ⟨rfl, rfl, rfl, rfl, fun h => by subst h; rfl⟩

theorem applyRuleActions_disabled (ctx : ExecCtx)
    (hE : ctx.enableActions = false) (ruleId : String) :
    ∀ (actions : List Action) (s : ExecState) (ats : List ActionTrace)
      (diffs : List StateDiff) (warns : List String), s.priorWrites = [] →
      (applyRuleActions ctx ruleId actions s ats diffs warns).1 = s ∧
      (applyRuleActions ctx ruleId actions s ats diffs warns).2.2.1 = diffs ∧
      (applyRuleActions ctx ruleId actions s ats diffs warns).2.2.2
        = warns := by
  intro actions
  induction actions with
  | nil => intro s ats diffs warns _; exact ⟨rfl, rfl, rfl⟩
  | cons a rest ih =>
    intro s ats diffs warns hpw
    obtain ⟨hd, hp, hl, hdf, hw⟩ := applyAction_disabled a s.data ruleId
      ("act-" ++ toString (s.actions.length + ats.length + 1)) s.priorWrites
    have hw' := hw hpw
    simp only [applyRuleActions, hE, hd, hp, hl, hdf, hw', List.append_nil]
    exact ih s (ats ++ _) diffs warns hpw

theorem ruleState0_priorWrites (matched : Bool) (s : ExecState) :
    (ruleState0 matched s).priorWrites = s.priorWrites := by
  unfold ruleState0; split <;> rfl

theorem ruleState0_data (matched : Bool) (s : ExecState) :
    (ruleState0 matched s).data = s.data := by
  unfold ruleState0; split <;> rfl

theorem ruleState0_actions (matched : Bool) (s : ExecState) :
    (ruleState0 matched s).actions = s.actions := by
  unfold ruleState0; split <;> rfl

theorem ruleState0_conflictWarnings (matched : Bool) (s : ExecState) :
    (ruleState0 matched s).conflictWarnings = s.conflictWarnings := by
  unfold ruleState0; split <;> rfl

theorem ruleState0_hitRuleLimit (matched : Bool) (s : ExecState) :
    (ruleState0 matched s).hitRuleLimit = s.hitRuleLimit := by
  unfold ruleState0; split <;> rfl

theorem ruleState0_traces (matched : Bool) (s : ExecState) :
    (ruleState0 matched s).traces = s.traces := by
  unfold ruleState0; split <;> rfl

theorem ruleOutcome_disabled (ctx : ExecCtx)
    (hE : ctx.enableActions = false) (rule : Rule) (s : ExecState)
    (hpw : s.priorWrites = []) :
    (ruleOutcome ctx rule s).1.data = s.data ∧
    (ruleOutcome ctx rule s).1.actions = s.actions ∧
    (ruleOutcome ctx rule s).1.priorWrites = [] ∧
    (ruleOutcome ctx rule s).1.conflictWarnings = s.conflictWarnings ∧
    (ruleOutcome ctx rule s).1.hitRuleLimit = s.hitRuleLimit ∧
    (ruleOutcome ctx rule s).2.2 = [] ∧
    (∃ t, (ruleOutcome ctx rule s).1.traces = s.traces ++ [t] ∧
      t.stateDiff = [] ∧ t.warnings = none) := by
  have hpw0 : (ruleState0 (evaluateCondition ctx.re rule.when s.data).result
      s).priorWrites = [] := by rw [ruleState0_priorWrites]; exact hpw
  obtain ⟨h1, h2, h3⟩ := applyRuleActions_disabled ctx hE rule.id
    (ruleActionsOf rule (evaluateCondition ctx.re rule.when s.data).result)
    (ruleState0 (evaluateCondition ctx.re rule.when s.data).result s)
    [] [] [] hpw0
  simp only [ruleOutcome]
  refine ⟨?_, ?_, ?_, ?_, ?_, ?_, ?_⟩
  · rw [h1, ruleState0_data]
  · rw [h1, ruleState0_actions]
  · rw [h1, ruleState0_priorWrites]; exact hpw
  · rw [h1, ruleState0_conflictWarnings]
  · rw [h1, ruleState0_hitRuleLimit]
  · exact h2
  · rw [h1, ruleState0_traces, h2, h3]
    exact ⟨_, rfl, rfl, rfl⟩

theorem runRules_disabled (ctx : ExecCtx)
    (hE : ctx.enableActions = false) :
    ∀ (rules : List Rule) (s : ExecState) (fired mutated : Bool),
      s.priorWrites = [] →
      (runRules ctx rules s fired mutated).1.data = s.data ∧
      (runRules ctx rules s fired mutated).1.actions = s.actions ∧
      (runRules ctx rules s fired mutated).1.priorWrites = [] ∧
      (runRules ctx rules s fired mutated).1.conflictWarnings
        = s.conflictWarnings ∧
      (runRules ctx rules s fired mutated).2.mutated = mutated ∧
      (∀ t ∈ (runRules ctx rules s fired mutated).1.traces,
        t ∈ s.traces ∨ (t.stateDiff = [] ∧ t.warnings = none)) := by
  intro rules
  induction rules with
  | nil =>
    intro s fired mutated hpw
    exact ⟨rfl, rfl, hpw, rfl, rfl, fun t ht => Or.inl ht⟩
  | cons rule rest ih =>
    intro s fired mutated hpw
    obtain ⟨hd, ha, hp, hc, hh, hsd, t, htr, htd, htw⟩ :=
      ruleOutcome_disabled ctx hE rule s hpw
    have hmut : (mutated || (ctx.enableActions &&
        !(ruleOutcome ctx rule s).2.2.isEmpty)) = mutated := by
      rw [hE]; simp
    simp only [runRules]
    split
    · refine ⟨hd, ha, hp, hc, hmut, fun u hu => ?_⟩
      rw [htr] at hu
      rcases List.mem_append.mp hu with h | h
      · exact Or.inl h
      · rcases List.mem_singleton.mp h with rfl
        exact Or.inr ⟨htd, htw⟩
    · split
      · refine ⟨hd, ha, hp, hc, hmut, fun u hu => ?_⟩
        rw [htr] at hu
        rcases List.mem_append.mp hu with h | h
        · exact Or.inl h
        · rcases List.mem_singleton.mp h with rfl
          exact Or.inr ⟨htd, htw⟩
      · obtain ⟨ihd, iha, ihp, ihc, ihm, iht⟩ :=
          ih (ruleOutcome ctx rule s).1
            (fired || (ruleOutcome ctx rule s).2.1)
            (mutated || (ctx.enableActions &&
              !(ruleOutcome ctx rule s).2.2.isEmpty)) hp
        refine ⟨ihd.trans hd, iha.trans ha, ihp, ihc.trans hc,
          ihm.trans hmut, fun u hu => ?_⟩
        rcases iht u hu with h | h
        · rw [htr] at h
          rcases List.mem_append.mp h with h' | h'
          · exact Or.inl h'
          · rcases List.mem_singleton.mp h' with rfl
            exact Or.inr ⟨htd, htw⟩
        · exact Or.inr h

theorem runPasses_disabled (ctx : ExecCtx)
    (hE : ctx.enableActions = false) (lus : Bool) :
    ∀ (fuel : Nat) (s s' : ExecState), s.priorWrites = [] →
      runPasses ctx lus fuel s = some s' →
      s'.data = s.data ∧ s'.actions = s.actions ∧
      s'.conflictWarnings = s.conflictWarnings ∧
      (∀ t ∈ s'.traces, t ∈ s.traces ∨
        (t.stateDiff = [] ∧ t.warnings = none)) := by
  intro fuel
  induction fuel with
  | zero =>
    intro s s' hpw h
    obtain ⟨hd, ha, hp, hc, hm, ht⟩ :=
      runRules_disabled ctx hE ctx.sortedRules s false false hpw
    rw [runPasses] at h
    split at h
    · exact absurd h (by simp)
    · cases Option.some.inj h
      exact ⟨hd, ha, hc, ht⟩
  | succ f ih =>
    intro s s' hpw h
    obtain ⟨hd, ha, hp, hc, hm, ht⟩ :=
      runRules_disabled ctx hE ctx.sortedRules s false false hpw
    rw [runPasses] at h
    split at h
    · obtain ⟨ihd, iha, ihc, iht⟩ := ih _ s' hp h
      refine ⟨ihd.trans hd, iha.trans ha, ihc.trans hc, fun t htm => ?_⟩
      rcases iht t htm with h' | h'
      · rcases ht t h' with h'' | h''
        · exact Or.inl h''
        · exact Or.inr h''
      · exact Or.inr h'
    · cases Option.some.inj h
      exact ⟨hd, ha, hc, ht⟩

theorem executePass_eq (ctx : ExecCtx) (s : ExecState) :
    executePass ctx s = runRules ctx ctx.sortedRules s false false := rfl

/-- A program whose rule matches and would write `order.discountPercent`
were actions enabled. -/
def dryProg : Program :=
  { rules := [{ id := "dr1", name := "dr1",
                when := .compare (.fact "order.total" none) "gt"
                  (.value (.num 100) none),
                thenActions := some [.set "order.discountPercent"
                  (.value (.num 10) none)] }] }

/-- The result of running `dryProg` with no options (dry run). -/
def dryResult : ExecutionResult :=
  (runProgram noRegex 0 dryProg
    (.obj [("order", .obj [("total", .num 120)])]) emptyOptions).getD default

/-- **C10.** When `enableActions` is unset (in particular with no options at
all) execution is a dry run: the returned `resultState` equals the private
deep copy of the input, the normalized action log is empty, every RuleTrace
carries an empty `stateDiff` and no warnings, and no dynamic conflict
warnings are produced (writes are neither applied nor recorded in the
conflict map). -/
theorem C10_dry_run (re : RegexEngine) (fuel : Nat) (p : Program)
    (i : JSValue) (o : ExecutionOptions) (r : ExecutionResult)
    (hE : o.enableActions.getD false = false)
    (h : runProgram re fuel p i o = some r) :
    r.resultState = cloneInput i ∧
    r.actions = [] ∧
    (∀ t ∈ r.trace, t.stateDiff = [] ∧ t.warnings = none) ∧
    r.conflictWarnings = none := by
  obtain ⟨s, hs, rfl⟩ := runProgram_some_inv re fuel p i o r h
  have hctx : (mkCtx re p o).enableActions = false := hE
  obtain ⟨hd, ha, hc, ht⟩ := runPasses_disabled (mkCtx re p o) hctx
    (o.loopUntilSettled.getD false) fuel (initState i) s rfl hs
  refine ⟨?_, ?_, ?_, ?_⟩
  · rw [attachTestReport_resultState, finishRun_resultState, hd]; rfl
  · rw [attachTestReport_actions, finishRun_actions, ha]; rfl
  · intro t htm
    rw [attachTestReport_trace, finishRun_trace] at htm
    rcases ht t htm with h' | h'
    · exact absurd h' (by simp [initState])
    · exact h'
  · rw [attachTestReport_conflictWarnings, finishRun_conflictWarnings, hc]
    rfl

/-- Witness for C10: running the demo rule with no options mutates nothing
and logs nothing. -/
theorem C10_witness :
    dryResult.resultState = cloneInput (.obj [("order",
      .obj [("total", .num 120)])]) ∧
    dryResult.actions = [] ∧
    (∀ t ∈ dryResult.trace, t.stateDiff = [] ∧ t.warnings = none) ∧
    dryResult.conflictWarnings = none :=
  C10_dry_run noRegex 0 dryProg (.obj [("order", .obj [("total", .num 120)])])
    emptyOptions dryResult rfl rfl

/-! ## Claim C1 — termination of the pass loop -/

/-- A rule that never matches (`1 === 2`) but whose `else` branch increments
`order.count` by 0 on every pass.  An `increment` action always records a
StateDiff when actions are enabled (executor.ts lines 176-179), yet an
`else`-branch action never counts as a firing (line 367-370 increments
`firings` only when `matched`). -/
def loopRule : Rule :=
  { id := "r1", name := "r1",
    when := .compare (.value (.num 1) none) "eq" (.value (.num 2) none),
    elseActions := some [.increment "order.count" 0] }

def loopProg : Program := { rules := [loopRule] }

def loopInput : JSValue := .obj [("order", .obj [("count", .num 0)])]

def loopOptions : ExecutionOptions :=
  { enableActions := some true, loopUntilSettled := some true }

theorem loopOutcome_spec (re : RegexEngine) (s : ExecState)
    (hd : s.data = loopInput) (hf : s.firings = 0)
    (hh : s.hitRuleLimit = false) :
    (ruleOutcome (mkCtx re loopProg loopOptions) loopRule s).1.data
      = loopInput ∧
    (ruleOutcome (mkCtx re loopProg loopOptions) loopRule s).1.firings = 0 ∧
    (ruleOutcome (mkCtx re loopProg loopOptions) loopRule s).1.hitRuleLimit
      = false ∧
    (ruleOutcome (mkCtx re loopProg loopOptions) loopRule s).2.1 = false ∧
    (ruleOutcome (mkCtx re loopProg loopOptions) loopRule s).2.2
      = [⟨"order.count", .num 0, .num 0⟩] := by
  have hm : (evaluateCondition (mkCtx re loopProg loopOptions).re
      loopRule.when s.data).result = false := by rw [hd]; rfl
  have hdata : ∀ (aid : String) (pw : PriorWrites),
      (applyAction (.increment "order.count" 0) loopInput "r1" aid true
        pw).data = loopInput := fun _ _ => rfl
  have hdiff : ∀ (aid : String) (pw : PriorWrites),
      (applyAction (.increment "order.count" 0) loopInput "r1" aid true
        pw).diffs = [⟨"order.count", .num 0, .num 0⟩] := fun _ _ => rfl
  simp only [ruleOutcome, hm]
  rw [show ruleActionsOf loopRule false = [Action.increment "order.count" 0]
    from rfl]
  rw [show ruleState0 false s = s from rfl]
  rw [show loopRule.id = "r1" from rfl]
  simp only [applyRuleActions,
    show (mkCtx re loopProg loopOptions).enableActions = true from rfl,
    hd, hdata, hdiff]
  simp_all

theorem loopPass_spec (re : RegexEngine) (s : ExecState)
    (hd : s.data = loopInput) (hf : s.firings = 0)
    (hh : s.hitRuleLimit = false) :
    (executePass (mkCtx re loopProg loopOptions) s).1.data = loopInput ∧
    (executePass (mkCtx re loopProg loopOptions) s).1.firings = 0 ∧
    (executePass (mkCtx re loopProg loopOptions) s).1.hitRuleLimit = false ∧
    (executePass (mkCtx re loopProg loopOptions) s).2.mutated = true ∧
    (executePass (mkCtx re loopProg loopOptions) s).2.stopEarly = false := by
  obtain ⟨h1, h2, h3, h4, h5⟩ := loopOutcome_spec re s hd hf hh
  rw [executePass_eq,
    show (mkCtx re loopProg loopOptions).sortedRules = [loopRule] from rfl]
  simp only [runRules, h4, h5]
  rw [if_neg]
  · simp only [Bool.false_and, Bool.or_false, runRules]
    refine ⟨h1, h2, h3, ?_, rfl⟩
    rw [show (mkCtx re loopProg loopOptions).enableActions = true from rfl]
    simp
  · rw [h2]
    rw [show (mkCtx re loopProg loopOptions).maxRuleFirings = 1000 from rfl]
    omega

theorem loopPasses_none (re : RegexEngine) :
    ∀ (fuel : Nat) (s : ExecState), s.data = loopInput → s.firings = 0 →
      s.hitRuleLimit = false →
      runPasses (mkCtx re loopProg loopOptions) true fuel s = none := by
  intro fuel
  induction fuel with
  | zero =>
    intro s hd hf hh
    obtain ⟨h1, h2, h3, h4, h5⟩ := loopPass_spec re s hd hf hh
    rw [runPasses, if_pos]
    rw [h4, h5, h3]
    rfl
  | succ f ih =>
    intro s hd hf hh
    obtain ⟨h1, h2, h3, h4, h5⟩ := loopPass_spec re s hd hf hh
    rw [runPasses, if_pos]
    · exact ih _ h1 h2 h3
    · rw [h4, h5, h3]
      rfl

/-! ## Claim C6 — rule ordering and trace order -/

instance : IsTotal Rule ruleLE :=
  ⟨fun a b => by
    unfold ruleLE
    rcases lt_trichotomy (effPriority a) (effPriority b) with h | h | h
    · exact Or.inr (Or.inl h)
    · rcases le_total a.id b.id with h' | h'
      · exact Or.inl (Or.inr ⟨h, h'⟩)
      · exact Or.inr (Or.inr ⟨h.symm, h'⟩)
    · exact Or.inl (Or.inl h)⟩

instance : IsTrans Rule ruleLE :=
  ⟨fun a b c hab hbc => by
    unfold ruleLE at *
    rcases hab with h1 | ⟨h1, h1'⟩ <;> rcases hbc with h2 | ⟨h2, h2'⟩
    · exact Or.inl (lt_trans h2 h1)
    · exact Or.inl (h2 ▸ h1)
    · exact Or.inl (by rw [h1]; exact h2)
    · exact Or.inr ⟨h1.trans h2, le_trans h1' h2'⟩⟩

theorem applyRuleActions_keeps (ctx : ExecCtx) (ruleId : String) :
    ∀ (actions : List Action) (s : ExecState) (ats : List ActionTrace)
      (diffs : List StateDiff) (warns : List String),
      (applyRuleActions ctx ruleId actions s ats diffs warns).1.traces
        = s.traces ∧
      (applyRuleActions ctx ruleId actions s ats diffs warns).1.firings
        = s.firings ∧
      (applyRuleActions ctx ruleId actions s ats diffs warns).1.hitRuleLimit
        = s.hitRuleLimit := by
  intro actions
  induction actions with
  | nil => exact fun s ats diffs warns => ⟨rfl, rfl, rfl⟩
  | cons a rest ih =>
    intro s ats diffs warns
    simp only [applyRuleActions]
    exact ih _ _ _ _

theorem ruleOutcome_trace_ids (ctx : ExecCtx) (rule : Rule) (s : ExecState) :
    (ruleOutcome ctx rule s).1.traces.map (fun t => t.ruleId) =
      s.traces.map (fun t => t.ruleId) ++ [rule.id] := by
  obtain ⟨ht, _, _⟩ := applyRuleActions_keeps ctx rule.id
    (ruleActionsOf rule (evaluateCondition ctx.re rule.when s.data).result)
    (ruleState0 (evaluateCondition ctx.re rule.when s.data).result s) [] [] []
  simp only [ruleOutcome, ht, ruleState0_traces, List.map_append]
  rfl

/-- `xs` is an initial segment of `ys`. -/
def IsInitSeg {α : Type} (xs ys : List α) : Prop := ∃ zs, xs ++ zs = ys

theorem runRules_trace_ids (ctx : ExecCtx) :
    ∀ (rules : List Rule) (s : ExecState) (fired mutated : Bool),
      ∃ pre post, rules = pre ++ post ∧
        (runRules ctx rules s fired mutated).1.traces.map (fun t => t.ruleId)
          = s.traces.map (fun t => t.ruleId) ++ pre.map (fun rl => rl.id) := by
  intro rules
  induction rules with
  | nil =>
    intro s fired mutated
    exact ⟨[], [], rfl, by simp [runRules]⟩
  | cons rule rest ih =>
    intro s fired mutated
    have hids := ruleOutcome_trace_ids ctx rule s
    simp only [runRules]
    split
    · exact ⟨[rule], rest, rfl, by simpa using hids⟩
    · split
      · exact ⟨[rule], rest, rfl, by simpa using hids⟩
      · obtain ⟨pre', post', hsplit, hmap⟩ := ih (ruleOutcome ctx rule s).1
          (fired || (ruleOutcome ctx rule s).2.1)
          (mutated || (ctx.enableActions &&
            !(ruleOutcome ctx rule s).2.2.isEmpty))
        refine ⟨rule :: pre', post', by simp [hsplit], ?_⟩
        rw [hmap, hids]
        simp

theorem runPasses_no_loop (ctx : ExecCtx) (fuel : Nat) (s : ExecState) :
    runPasses ctx false fuel s = some (executePass ctx s).1 := by
  rw [runPasses.eq_def]
  simp

/-- **C6.** `sortRules` realises the order "descending effective priority
(`priority ?? 0`), ties broken by ascending rule id" — its output is
pairwise sorted by that relation (`ruleLE`) and is a permutation of the
input — and in a non-looping run (`loopUntilSettled` unset, any mode,
including the default `allMatches`) the RuleTraces of the result appear in
exactly that order: their ruleId sequence is an initial segment of the
sorted rules' id sequence (a proper initial segment only when an early stop
or the cap cut the pass short). -/
theorem C6_rule_order :
    (∀ rules : List Rule, (sortRules rules).Pairwise ruleLE) ∧
    (∀ rules : List Rule, (sortRules rules).Perm rules) ∧
    (∀ (re : RegexEngine) (fuel : Nat) (p : Program) (i : JSValue)
      (o : ExecutionOptions) (r : ExecutionResult),
      o.loopUntilSettled.getD false = false →
      runProgram re fuel p i o = some r →
      IsInitSeg (r.trace.map (fun t => t.ruleId))
        ((sortRules p.rules).map (fun rl => rl.id))) := by
  refine ⟨fun rules => List.sorted_insertionSort ruleLE rules,
    fun rules => List.perm_insertionSort ruleLE rules,
    fun re fuel p i o r hlus h => ?_⟩
  obtain ⟨s, hs, rfl⟩ := runProgram_some_inv re fuel p i o r h
  rw [hlus, runPasses_no_loop] at hs
  cases Option.some.inj hs
  rw [attachTestReport_trace, finishRun_trace]
  obtain ⟨pre, post, hsplit, hmap⟩ := runRules_trace_ids (mkCtx re p o)
    (mkCtx re p o).sortedRules (initState i) false false
  rw [executePass_eq]
  rw [hmap]
  refine ⟨post.map (fun rl => rl.id), ?_⟩
  have : (mkCtx re p o).sortedRules = sortRules p.rules := rfl
  rw [← this, hsplit]
  simp [initState]

/-- Two always-matching rules with priorities 1 and 5. -/
def ordProg : Program :=
  { rules := [{ id := "low", name := "low", priority := some 1,
                when := .allC [], thenActions := some [] },
              { id := "high", name := "high", priority := some 5,
                when := .allC [], thenActions := some [] }] }

/-- The result of running `ordProg` with default options. -/
def ordResult : ExecutionResult :=
  (runProgram noRegex 0 ordProg (.obj []) emptyOptions).getD default

/-- Witness for C6: the trace of the default (allMatches, non-looping) run
of `ordProg` lists rule ids in sorted order. -/
theorem C6_witness :
    IsInitSeg (ordResult.trace.map (fun t => t.ruleId))
      ((sortRules ordProg.rules).map (fun rl => rl.id)) :=
  C6_rule_order.2.2 noRegex 0 ordProg (.obj []) emptyOptions ordResult rfl rfl

/-! ## Claim C4 — static detection of conflicting Set actions -/

namespace Legacy

theorem mem_pairConflicts {A B : LRule} {c : Conflict}
    (h : c ∈ pairConflicts A B) : c.ruleA = A.id ∧ c.ruleB = B.id := by
  unfold pairConflicts at h
  split at h
  · simp at h
  · rcases List.mem_flatMap.mp h with ⟨a, _, hc⟩
    rcases List.mem_filterMap.mp hc with ⟨b, _, hcb⟩
    split at hcb
    · cases Option.some.inj hcb
      exact ⟨rfl, rfl⟩
    · simp at hcb

theorem mem_detectAux {c : Conflict} :
    ∀ {l : List LRule}, c ∈ detectAux l →
      c.ruleA ∈ l.map (fun r => r.id) ∧ c.ruleB ∈ l.map (fun r => r.id) := by
  intro l
  induction l with
  | nil => intro h; simp [detectAux] at h
  | cons X rest ih =>
    intro h
    rcases List.mem_append.mp h with h | h
    · rcases List.mem_flatMap.mp h with ⟨Y, hY, hc⟩
      obtain ⟨h1, h2⟩ := mem_pairConflicts hc
      refine ⟨by simp [h1], ?_⟩
      simp only [List.map_cons, List.mem_cons]
      exact Or.inr (List.mem_map.mpr ⟨Y, hY, h2.symm⟩)
    · obtain ⟨h1, h2⟩ := ih h
      exact ⟨List.mem_cons_of_mem _ h1, List.mem_cons_of_mem _ h2⟩

theorem countPair_eq_zero_of {l : List Conflict} {x y : String}
    (h : ∀ c ∈ l, refersToPair c x y = false) : countPair l x y = 0 := by
  unfold countPair
  rw [List.countP_eq_zero]
  intro a ha
  simp [h a ha]

theorem countPair_append (l₁ l₂ : List Conflict) (x y : String) :
    countPair (l₁ ++ l₂) x y = countPair l₁ x y + countPair l₂ x y :=
  List.countP_append _ _ _

theorem countPair_flatMap_zero {f : LRule → List Conflict}
    {l : List LRule} {x y : String}
    (h : ∀ Y ∈ l, countPair (f Y) x y = 0) :
    countPair (l.flatMap f) x y = 0 := by
  induction l with
  | nil => rfl
  | cons Y rest ih =>
    rw [List.flatMap_cons, countPair_append, h Y (List.mem_cons_self Y rest),
      ih (fun Z hZ => h Z (List.mem_cons_of_mem _ hZ))]

theorem length_filterMap_guard {β γ : Type} (l : List β) (p : β → Prop)
    [DecidablePred p] (f : β → γ) :
    (l.filterMap (fun b => if p b then some (f b) else none)).length
      = l.countP (fun b => decide (p b)) := by
  induction l with
  | nil => rfl
  | cons b rest ih =>
    by_cases hb : p b <;>
      simp [List.filterMap_cons, List.countP_cons, hb, ih]

theorem length_flatMap_eq_sum {β γ : Type} (l : List β) (f : β → List γ) :
    (l.flatMap f).length = (l.map (fun a => (f a).length)).sum := by
  induction l with
  | nil => rfl
  | cons b rest ih => simp [List.flatMap_cons, ih]

/-- For a same-priority rule pair, the nested `forEach` emits one conflict
record per conflicting action pair: the length of `pairConflicts A B` is
exactly `conflictingPairCount A B`. -/
theorem length_pairConflicts {A B : LRule}
    (hp : A.priority.getD 0 = B.priority.getD 0) :
    (pairConflicts A B).length = conflictingPairCount A B := by
  unfold pairConflicts conflictingPairCount
  rw [if_neg (fun hne => hne hp), length_flatMap_eq_sum]
  congr 1
  apply List.map_congr_left
  intro a _
  exact length_filterMap_guard (setActions B)
    (fun b => a.1 = b.1 ∧ a.2 ≠ b.2)
    (fun _ => (⟨a.1, A.id, B.id⟩ : Conflict))

/-- Every conflict emitted for the pair `(A, B)` references exactly that
pair, so the pair's count over `pairConflicts A B` is its full length, i.e.
the number of conflicting action pairs. -/
theorem countPair_pairConflicts_self {A B : LRule}
    (hp : A.priority.getD 0 = B.priority.getD 0) :
    countPair (pairConflicts A B) A.id B.id = conflictingPairCount A B := by
  have hall : ∀ c ∈ pairConflicts A B,
      (fun c => refersToPair c A.id B.id) c = true := by
    intro c hc
    obtain ⟨h1, h2⟩ := mem_pairConflicts hc
    simp [refersToPair, h1, h2]
  unfold countPair
  rw [List.countP_eq_length.mpr hall, length_pairConflicts hp]

theorem countPair_pair_other {A Y : LRule} {x y : String}
    (hxA : x = A.id) (hYy : Y.id ≠ y) (hAy : A.id ≠ y) :
    countPair (pairConflicts A Y) x y = 0 := by
  apply countPair_eq_zero_of
  intro c hc
  obtain ⟨h1, h2⟩ := mem_pairConflicts hc
  subst hxA
  simp [refersToPair, h1, h2, hYy, hAy]

theorem countPair_flatMap_count {A B : LRule}
    (hp : A.priority.getD 0 = B.priority.getD 0) (hAB : A.id ≠ B.id) :
    ∀ (rest : List LRule), B ∈ rest →
      (rest.map (fun r => r.id)).Nodup →
      countPair (rest.flatMap (pairConflicts A)) A.id B.id
        = conflictingPairCount A B := by
  intro rest
  induction rest with
  | nil => intro h; simp at h
  | cons Y rest' ih =>
    intro hBmem hnd
    rw [List.flatMap_cons, countPair_append]
    rcases List.mem_cons.mp hBmem with rfl | hBrest
    · have h1 := countPair_pairConflicts_self hp
      have h0 : countPair (rest'.flatMap (pairConflicts A)) A.id B.id = 0 := by
        apply countPair_flatMap_zero
        intro Z hZ
        have hzB : Z.id ≠ B.id := by
          intro he
          exact (List.nodup_cons.mp hnd).1 (List.mem_map.mpr ⟨Z, hZ, he⟩)
        exact countPair_pair_other rfl hzB hAB
      rw [h1, h0]
      omega
    · have hYB : Y.id ≠ B.id := by
        intro he
        exact (List.nodup_cons.mp hnd).1
          (List.mem_map.mpr ⟨B, hBrest, he.symm⟩)
      rw [countPair_pair_other rfl hYB hAB,
        ih hBrest (List.nodup_cons.mp hnd).2]
      omega

theorem detectAux_count {A B : LRule}
    (hp : A.priority.getD 0 = B.priority.getD 0) :
    ∀ (L : List LRule), List.Sublist [A, B] L →
      (L.map (fun r => r.id)).Nodup →
      countPair (detectAux L) A.id B.id = conflictingPairCount A B := by
  intro L
  induction L with
  | nil => intro hsub; exact absurd hsub (by simp)
  | cons X rest ih =>
    intro hsub hnd
    simp only [detectAux]
    rw [countPair_append]
    cases hsub with
    | cons _ h =>
      have hAmem : A ∈ rest := h.subset (by simp)
      have hBmem : B ∈ rest := h.subset (by simp)
      have hXA : X.id ≠ A.id := by
        intro he
        exact (List.nodup_cons.mp hnd).1
          (List.mem_map.mpr ⟨A, hAmem, he.symm⟩)
      have hXB : X.id ≠ B.id := by
        intro he
        exact (List.nodup_cons.mp hnd).1
          (List.mem_map.mpr ⟨B, hBmem, he.symm⟩)
      have h0 : countPair (rest.flatMap (pairConflicts X)) A.id B.id = 0 := by
        apply countPair_flatMap_zero
        intro Z _
        apply countPair_eq_zero_of
        intro c hc
        obtain ⟨h1, h2⟩ := mem_pairConflicts hc
        simp [refersToPair, h1, h2, hXA, hXB]
      rw [h0, ih h (List.nodup_cons.mp hnd).2]
      omega
    | cons₂ _ h =>
      have hBmem : B ∈ rest := h.subset (by simp)
      have hAnotin : A.id ∉ rest.map (fun r => r.id) :=
        (List.nodup_cons.mp hnd).1
      have hAB : A.id ≠ B.id := by
        intro he
        exact hAnotin (List.mem_map.mpr ⟨B, hBmem, he.symm⟩)
      have h1 := countPair_flatMap_count hp hAB rest hBmem
        (List.nodup_cons.mp hnd).2
      have h0 : countPair (detectAux rest) A.id B.id = 0 := by
        apply countPair_eq_zero_of
        intro c hc
        obtain ⟨h1', h2'⟩ := mem_detectAux hc
        have hcA : c.ruleA ≠ A.id := fun he => hAnotin (he ▸ h1')
        have hcB : c.ruleB ≠ A.id := fun he => hAnotin (he ▸ h2')
        simp [refersToPair, hcA, hcB]
      rw [h1, h0]
      omega

/-- The two rules of the counterexample: rule `r-a` carries **two** `set`
actions on `order.x` with different literals, rule `r-b` one more. -/
def confA : LRule :=
  { id := "r-a", name := "A",
    actions := [.set "order.x" ⟨.num 1, none⟩, .set "order.x" ⟨.num 2, none⟩] }

def confB : LRule :=
  { id := "r-b", name := "B", actions := [.set "order.x" ⟨.num 3, none⟩] }

def confProg : LProgram := ⟨[confA, confB]⟩

/-- **C4 (counterexample).** The claim promises *exactly one* validation
error per unordered pair of same-priority rules with conflicting `Set`
actions.  For `confProg` — both rules at default priority 0, both setting
`order.x` to different literals — the detector emits **two** conflicts
referencing the pair `(r-a, r-b)`, one per conflicting action pair, because
`r-a` contains two differing `set` actions on the same path. -/
theorem C4_counterexample :
    confA.priority.getD 0 = confB.priority.getD 0 ∧
    ("order.x", (⟨.num 1, none⟩ : ValueOperand)) ∈ setActions confA ∧
    ("order.x", (⟨.num 3, none⟩ : ValueOperand)) ∈ setActions confB ∧
    ((⟨.num 1, none⟩ : ValueOperand) ≠ ⟨.num 3, none⟩) ∧
    countPair (detectConflictingSetActions confProg) "r-a" "r-b" = 2 := by
  decide

/-- **C4 (amended).** Pre-execution validation emits one conflict error per
pair of differing-value `Set` actions (one from each rule) on a shared path:
for any two rules `A` before `B` in the program (pairwise-distinct rule ids)
with equal effective priority (absent = 0), the number of validation errors
referencing both rule ids equals `conflictingPairCount A B`, the number of
action pairs `(a ∈ A, b ∈ B)` of `set` actions targeting the same path with
differing literal values.  In particular exactly one error when exactly one
such action pair conflicts — including rules that carry further `set`
actions on other paths — and more than one when several pairs conflict. -/
theorem C4_amended (p : LProgram) (A B : LRule)
    (hnd : (p.rules.map (fun r => r.id)).Nodup)
    (hsub : List.Sublist [A, B] p.rules)
    (hp : A.priority.getD 0 = B.priority.getD 0) :
    countPair (detectConflictingSetActions p) A.id B.id
      = conflictingPairCount A B :=
  detectAux_count hp p.rules hsub hnd

/-- A rule pair where one rule also sets an unrelated path: `r-ma` sets
`order.x` and `order.y`, `r-mb` sets only `order.x`; exactly one of the two
cross action pairs conflicts (`order.x`: 1 vs 2). -/
def mixA : LRule :=
  { id := "r-ma", name := "MA",
    actions := [.set "order.x" ⟨.num 1, none⟩,
                .set "order.y" ⟨.num 5, none⟩] }

def mixB : LRule :=
  { id := "r-mb", name := "MB", actions := [.set "order.x" ⟨.num 2, none⟩] }

def mixProg : LProgram := ⟨[mixA, mixB]⟩

/-- Witness for C4 (amended): on `mixProg` the detector's pair count equals
the conflicting-action-pair count, and that count is one — the extra
`order.y` action of `r-ma` does not add an error. -/
theorem C4_witness :
    countPair (detectConflictingSetActions mixProg) "r-ma" "r-mb"
        = conflictingPairCount mixA mixB ∧
      conflictingPairCount mixA mixB = 1 := by
  constructor
  · have h := C4_amended mixProg mixA mixB
      (by decide) (List.Sublist.refl _) rfl
    exact h
  · decide

end Legacy

/-- **C1 (code bug).** The pass loop of `runProgram` does **not** always
terminate: with `loopUntilSettled` and `enableActions` on, a rule that never
matches but whose `else` branch increments a counter by 0 mutates state on
every pass (the increment records a StateDiff) while never firing (else
actions are not counted by the firing cap) — so no settle, no early stop,
and no cap can ever end the loop.  In the fuel-indexed embedding this reads:
for every number of extra passes the loop is still running. -/
theorem C1_pass_loop_diverges (re : RegexEngine) (fuel : Nat) :
    runProgram re fuel loopProg loopInput loopOptions = none := by
  have h := loopPasses_none re fuel (initState loopInput) rfl rfl rfl
  unfold runProgram runProgramBase
  rw [show (loopOptions.loopUntilSettled.getD false) = true from rfl]
  rw [h]
  rfl

end PlainSpec
